import Mathlib

/-!
# Offline sync manager (`assets/js/offline-sync.js`)

A shallow embedding of `OfflineSyncManager`: the IndexedDB database `BYAMN_Offline` with its two
object stores, the manager's fields, and the methods that act on them.  Asynchronous methods are
run to completion; a rejected promise or a thrown error is an `Except.error`.

Conventions.
* Identifiers (`userId`, `courseId`, `lessonId`, `certificateId`, enrollment ids) are strings.
* `timestamp` and `lastUpdated` hold `new Date().toISOString()`; the embedding keeps the instant as a
  natural number, whose order is the order IndexedDB gives the keys of the `timestamp` index.
* `attempts` is a natural number, so `item.attempts || 0` is `item.attempts`.
* A drain is one uninterrupted run: no other method of the manager runs between its steps.
* The remote backend (`window.firebaseServices`) is external: it is a parameter (`Env`) that
  answers each call as a function of the calls issued before it.
-/

namespace OfflineSync

/-! ## Data model -/

/-- The `progressData` object destructured by `syncProgressUpdate`. -/
structure ProgressData where
  userId : String
  courseId : String
  lessonId : String
  progress : Nat
  timeSpent : Nat
deriving DecidableEq, Repr

/-- The `completionData` object destructured by `syncCourseCompletion`. -/
structure CompletionData where
  userId : String
  courseId : String
  certificateId : String
deriving DecidableEq, Repr

/-- The `type` and `data` properties of a queue item, as `processSyncItem` reads them: the switch
on `item.type` decides how `item.data` is destructured; under any other type `data` is never
read. -/
inductive SyncPayload where
  | progress_update (data : ProgressData)
  | course_completion (data : CompletionData)
  | unknown (type : String)
deriving DecidableEq, Repr

/-- An item as handed to `addToSyncQueue`, with the properties `queueProgressUpdate` gives it: it
has no `id` yet (the key path of the store) and it has a `timestamp` (the key of the index). -/
structure NewSyncItem where
  payload : SyncPayload
  timestamp : Nat
  attempts : Nat
deriving DecidableEq, Repr

/-- A record of the object store `syncQueue` (key path `id`). -/
structure SyncItem where
  id : Nat
  payload : SyncPayload
  timestamp : Nat
  attempts : Nat
deriving DecidableEq, Repr

/-- A record of the object store `courseProgress` (key path `[userId, courseId, lessonId]`). -/
structure ProgressRecord where
  userId : String
  courseId : String
  lessonId : String
  progress : Nat
  timeSpent : Nat
  lastUpdated : Nat
deriving DecidableEq, Repr

/-- The object store `syncQueue`: its records in ascending key order, and the current number of
its key generator (`autoIncrement: true`). -/
structure SyncStore where
  records : List SyncItem
  nextKey : Nat
deriving DecidableEq, Repr

/-- The database `BYAMN_Offline`, version 1, as `onupgradeneeded` lays it out. -/
structure Database where
  syncQueue : SyncStore
  courseProgress : List ProgressRecord
deriving DecidableEq, Repr

/-- The fields of an `OfflineSyncManager`; `db` is unset until `initDatabase` succeeds. -/
structure OfflineSyncManager where
  isOnline : Bool
  syncQueue : List SyncItem
  db : Option Database
deriving DecidableEq, Repr

/-! ## The object store `syncQueue` -/

/-- A freshly created `syncQueue` store: no record, key generator at 1. -/
def SyncStore.empty : SyncStore :=
  { records := [], nextKey := 1 }

/-- The call `store.add(item)` for an item without `id`: the key generator supplies the key, which
exceeds every key in the store, so the record goes last. Returns the key. -/
def SyncStore.add (s : SyncStore) (item : NewSyncItem) : Nat × SyncStore :=
  (s.nextKey,
   { records := s.records ++
       [{ id := s.nextKey, payload := item.payload, timestamp := item.timestamp,
          attempts := item.attempts }],
     nextKey := s.nextKey + 1 })

/-- The call `store.get(itemId)`. -/
def SyncStore.get (s : SyncStore) (itemId : Nat) : Option SyncItem :=
  s.records.find? (fun x => x.id == itemId)

/-- The call `store.delete(itemId)`: succeeds whether or not the key is present. -/
def SyncStore.delete (s : SyncStore) (itemId : Nat) : SyncStore :=
  { s with records := s.records.filter (fun x => x.id != itemId) }

/-- Insert-or-replace in a list kept in ascending key order. -/
def SyncStore.putRecord (item : SyncItem) : List SyncItem → List SyncItem
  | [] => [item]
  | x :: xs =>
    if item.id < x.id then item :: x :: xs
    else if item.id = x.id then item :: xs
    else x :: SyncStore.putRecord item xs

/-- The call `store.put(item)` for an item carrying its `id`: replaces the record under that key
(or inserts it); a key at or above the generator's number advances the generator. -/
def SyncStore.put (s : SyncStore) (item : SyncItem) : SyncStore :=
  { records := SyncStore.putRecord item s.records,
    nextKey := max s.nextKey (item.id + 1) }

/-- Order of the records in the index `timestamp`: by index key, then by primary key. -/
def SyncItem.indexLe (a b : SyncItem) : Prop :=
  a.timestamp < b.timestamp ∨ (a.timestamp = b.timestamp ∧ a.id ≤ b.id)

instance SyncItem.decidableIndexLe : DecidableRel SyncItem.indexLe :=
  fun a b => inferInstanceAs
    (Decidable (a.timestamp < b.timestamp ∨ (a.timestamp = b.timestamp ∧ a.id ≤ b.id)))

/-- The call `store.index('timestamp').getAll()`: every record, in index order. -/
def SyncStore.getAllByTimestamp (s : SyncStore) : List SyncItem :=
  s.records.insertionSort SyncItem.indexLe

/-- Store invariant: keys strictly ascending and below the key generator's number. -/
def SyncStore.WF (s : SyncStore) : Prop :=
  s.records.Pairwise (fun (a b : SyncItem) => a.id < b.id) ∧ ∀ x ∈ s.records, x.id < s.nextKey

instance SyncStore.decidableWF (s : SyncStore) : Decidable s.WF :=
  inferInstanceAs (Decidable
    (s.records.Pairwise (fun (a b : SyncItem) => a.id < b.id) ∧
      ∀ x ∈ s.records, x.id < s.nextKey))

/-! ## Queue operations of the manager -/

/-- The rejection every storage method raises when `this.db` is unset. -/
def notInitialized : String := "Database not initialized"

/-- `addToSyncQueue(item)`: resolves with the assigned key. -/
def addToSyncQueue (m : OfflineSyncManager) (item : NewSyncItem) :
    Except String (Nat × OfflineSyncManager) :=
  match m.db with
  | none => .error notInitialized
  | some db =>
    let r := db.syncQueue.add item
    .ok (r.1, { m with db := some { db with syncQueue := r.2 } })

/-- `getPendingSyncItems()`. -/
def getPendingSyncItems (m : OfflineSyncManager) : Except String (List SyncItem) :=
  match m.db with
  | none => .error notInitialized
  | some db => .ok db.syncQueue.getAllByTimestamp

/-- `removeFromSyncQueue(itemId)`. -/
def removeFromSyncQueue (m : OfflineSyncManager) (itemId : Nat) :
    Except String OfflineSyncManager :=
  match m.db with
  | none => .error notInitialized
  | some db => .ok { m with db := some { db with syncQueue := db.syncQueue.delete itemId } }

/-- The body of `getRequest.onsuccess` in `updateSyncAttempt`, on the store. -/
def SyncStore.recordAttempt (s : SyncStore) (itemId : Nat) : SyncStore :=
  match s.get itemId with
  | some item =>
    let item := { item with attempts := item.attempts + 1 }
    if item.attempts ≥ 5 then s.delete itemId else s.put item
  | none => s

/-- `updateSyncAttempt(itemId)`. -/
def updateSyncAttempt (m : OfflineSyncManager) (itemId : Nat) :
    Except String OfflineSyncManager :=
  match m.db with
  | none => .error notInitialized
  | some db =>
    .ok { m with db := some { db with syncQueue := db.syncQueue.recordAttempt itemId } }

/-- The records of the durable queue behind the manager's handle (none while it is unset). -/
def queueRecords (m : OfflineSyncManager) : List SyncItem :=
  match m.db with
  | none => []
  | some db => db.syncQueue.records

/-- The manager after `k` consecutive `updateSyncAttempt(itemId)` calls (`k` failed attempts). -/
def failTimes (itemId : Nat) : Nat → OfflineSyncManager → Except String OfflineSyncManager
  | 0, m => .ok m
  | k + 1, m =>
    match updateSyncAttempt m itemId with
    | .ok m1 => failTimes itemId k m1
    | .error e => .error e

/-- A run of `addToSyncQueue` calls, one for each item of the list, in order. -/
def enqueueAll : List NewSyncItem → OfflineSyncManager → Except String OfflineSyncManager
  | [], m => .ok m
  | item :: rest, m =>
    match addToSyncQueue m item with
    | .ok (_, m1) => enqueueAll rest m1
    | .error e => .error e

/-- A stored record without its key: the item as it was handed to `addToSyncQueue`. -/
def SyncItem.toNew (x : SyncItem) : NewSyncItem :=
  { payload := x.payload, timestamp := x.timestamp, attempts := x.attempts }

/-! ## The window globals and the remote backend -/

/-- An enrollment as `getUserEnrollments` returns it: the two properties the code reads. -/
structure Enrollment where
  id : String
  courseId : String
deriving DecidableEq, Repr

/-- A call on `window.firebaseServices` that goes to the backend.  The document reference built
by `doc(db, 'enrollments', enrollment.id)` is local and is folded into `updateDoc`. -/
inductive BackendCall where
  | getUserEnrollments (userId : String)
  | updateLessonProgress (enrollmentId lessonId : String) (progress : Nat)
  | updateLessonAnalytics (userId courseId lessonId : String) (timeSpent : Nat)
      (completed : Bool)
  | updateCourseCompletionAnalytics (userId courseId : String)
  | updateDoc (enrollmentId certificateId : String) (completedAt : Nat)
deriving DecidableEq, Repr

/-- Whether a backend call writes: every call but the enrollment lookup. -/
def BackendCall.isWrite : BackendCall → Bool
  | .getUserEnrollments _ => false
  | .updateLessonProgress _ _ _ => true
  | .updateLessonAnalytics _ _ _ _ _ => true
  | .updateCourseCompletionAnalytics _ _ => true
  | .updateDoc _ _ _ => true

/-- A message handed to `window.utils.showNotification`. -/
inductive Notification where
  | offline
  | online
  | syncComplete (syncedItems : Nat)
deriving DecidableEq, Repr

/-- What the code finds outside itself: which globals are present, and how the backend and the
clock answer, each as a function of the backend calls issued so far. -/
structure Env where
  hasFirebaseServices : Bool
  hasUpdateLessonProgress : Bool
  hasUpdateCourseCompletionAnalytics : Bool
  hasUpdateDoc : Bool
  hasShowNotification : Bool
  getUserEnrollments : List BackendCall → String → Except String (List Enrollment)
  respond : List BackendCall → BackendCall → Except String Unit
  clock : List BackendCall → Nat

/-- The effects the manager has had on the outside: backend calls issued and notifications
shown, oldest first. -/
structure World where
  calls : List BackendCall
  notifications : List Notification
deriving DecidableEq, Repr

/-- Record a backend call as issued. -/
def World.call (w : World) (c : BackendCall) : World :=
  { w with calls := w.calls ++ [c] }

/-- The guarded call `window.utils.showNotification(...)`. -/
def World.notify (env : Env) (w : World) (n : Notification) : World :=
  if env.hasShowNotification then { w with notifications := w.notifications ++ [n] } else w

/-- `showOfflineNotification()`. -/
def showOfflineNotification (env : Env) (w : World) : World :=
  w.notify env .offline

/-- `showOnlineNotification()`. -/
def showOnlineNotification (env : Env) (w : World) : World :=
  w.notify env .online

/-- `showSyncCompleteNotification(syncedItems)`. -/
def showSyncCompleteNotification (env : Env) (w : World) (syncedItems : Nat) : World :=
  if syncedItems > 0 then w.notify env (.syncComplete syncedItems) else w

/-! ## Processing one item -/

/-- `syncProgressUpdate(progressData)`: the result of the promise and the effects. -/
def syncProgressUpdate (env : Env) (w : World) (progressData : ProgressData) :
    Except String Unit × World :=
  if env.hasFirebaseServices && env.hasUpdateLessonProgress then
    let w1 := w.call (.getUserEnrollments progressData.userId)
    match env.getUserEnrollments w.calls progressData.userId with
    | .error e => (.error e, w1)
    | .ok enrollments =>
      match enrollments.find? (fun e => e.courseId == progressData.courseId) with
      | some enrollment =>
        let c2 := BackendCall.updateLessonProgress enrollment.id progressData.lessonId
          progressData.progress
        let w2 := w1.call c2
        match env.respond w1.calls c2 with
        | .error e => (.error e, w2)
        | .ok _ =>
          let c3 := BackendCall.updateLessonAnalytics progressData.userId
            progressData.courseId progressData.lessonId progressData.timeSpent
            (progressData.progress == 100)
          let w3 := w2.call c3
          match env.respond w2.calls c3 with
          | .error e => (.error e, w3)
          | .ok _ => (.ok (), w3)
      | none => (.ok (), w1)
  else (.ok (), w)

/-- `syncCourseCompletion(completionData)`: the result of the promise and the effects. -/
def syncCourseCompletion (env : Env) (w : World) (completionData : CompletionData) :
    Except String Unit × World :=
  if env.hasFirebaseServices && env.hasUpdateCourseCompletionAnalytics then
    let c1 := BackendCall.updateCourseCompletionAnalytics completionData.userId
      completionData.courseId
    let w1 := w.call c1
    match env.respond w.calls c1 with
    | .error e => (.error e, w1)
    | .ok _ =>
      let w2 := w1.call (.getUserEnrollments completionData.userId)
      match env.getUserEnrollments w1.calls completionData.userId with
      | .error e => (.error e, w2)
      | .ok enrollments =>
        match enrollments.find? (fun e => e.courseId == completionData.courseId) with
        | some enrollment =>
          if env.hasUpdateDoc then
            let c3 := BackendCall.updateDoc enrollment.id completionData.certificateId
              (env.clock w2.calls)
            let w3 := w2.call c3
            match env.respond w2.calls c3 with
            | .error e => (.error e, w3)
            | .ok _ => (.ok (), w3)
          else (.ok (), w2)
        | none => (.ok (), w2)
  else (.ok (), w)

/-- `processSyncItem(item)`: an unknown type is only warned about. -/
def processSyncItem (env : Env) (w : World) (item : SyncItem) : Except String Unit × World :=
  match item.payload with
  | .progress_update data => syncProgressUpdate env w data
  | .course_completion data => syncCourseCompletion env w data
  | .unknown _ => (.ok (), w)

/-! ## Draining the queue -/

/-- The `for (const item of pendingItems)` loop of `processSyncQueue`.  An error of the inner
`try` goes to `updateSyncAttempt`; an error of `updateSyncAttempt` leaves the loop. -/
def processItems (env : Env) :
    List SyncItem → OfflineSyncManager → World → Except String Unit × OfflineSyncManager × World
  | [], m, w => (.ok (), m, w)
  | item :: rest, m, w =>
    let r := processSyncItem env w item
    let removed :=
      match r.1 with
      | .ok _ => removeFromSyncQueue m item.id
      | .error e => .error e
    match removed with
    | .ok m1 => processItems env rest m1 r.2
    | .error _ =>
      match updateSyncAttempt m item.id with
      | .ok m1 => processItems env rest m1 r.2
      | .error e => (.error e, m, r.2)

/-- `processSyncQueue()`: the outer `catch` logs and swallows whatever the `try` raised, so the
promise always resolves. -/
def processSyncQueue (env : Env) (m : OfflineSyncManager) (w : World) :
    Except String Unit × OfflineSyncManager × World :=
  if !m.isOnline then (.ok (), m, w)
  else
    match getPendingSyncItems m with
    | .error _ => (.ok (), m, w)
    | .ok pendingItems =>
      match processItems env pendingItems m w with
      | (.ok _, m1, w1) => (.ok (), m1, showSyncCompleteNotification env w1 pendingItems.length)
      | (.error _, m1, w1) => (.ok (), m1, w1)

/-- `queueProgressUpdate(progressData)`; `now` is the instant `new Date()` reads. -/
def queueProgressUpdate (env : Env) (m : OfflineSyncManager) (w : World)
    (progressData : ProgressData) (now : Nat) :
    Except String Unit × OfflineSyncManager × World :=
  let syncItem : NewSyncItem :=
    { payload := .progress_update progressData, timestamp := now, attempts := 0 }
  match addToSyncQueue m syncItem with
  | .error e => (.error e, m, w)
  | .ok (_, m1) =>
    if m1.isOnline then processSyncQueue env m1 w
    else (.ok (), m1, showOfflineNotification env w)

/-- `handleOnline()`, with the drain it starts run to its end. -/
def handleOnline (env : Env) (m : OfflineSyncManager) (w : World) :
    OfflineSyncManager × World :=
  let m1 := { m with isOnline := true }
  let w1 := showOnlineNotification env w
  (processSyncQueue env m1 w1).2

/-- `handleOffline()`. -/
def handleOffline (env : Env) (m : OfflineSyncManager) (w : World) :
    OfflineSyncManager × World :=
  ({ m with isOnline := false }, showOfflineNotification env w)

/-- `checkPendingSync()`: a rejection of `getPendingSyncItems` rejects its promise. -/
def checkPendingSync (env : Env) (m : OfflineSyncManager) (w : World) :
    Except String Unit × OfflineSyncManager × World :=
  match getPendingSyncItems m with
  | .error e => (.error e, m, w)
  | .ok pendingItems =>
    if pendingItems.length > 0 && m.isOnline then
      (.ok (), (processSyncQueue env m w).2)
    else (.ok (), m, w)

/-! ## Process start -/

/-- The field assignments of the constructor, before it calls `init`. -/
def constructFields (navigatorOnLine : Bool) : OfflineSyncManager :=
  { isOnline := navigatorOnLine, syncQueue := [], db := none }

/-- The handler `request.onsuccess` of `initDatabase`: it runs as a task of its own, after the
script that issued `indexedDB.open`, and only then is `this.db` set. -/
def initDatabaseOnSuccess (m : OfflineSyncManager) (result : Database) : OfflineSyncManager :=
  { m with db := some result }

/-- `init()`: `initDatabase()` issues the open request and returns its promise, which is not
awaited; `checkPendingSync()` is called next, in the same run, and reaches
`getPendingSyncItems` before any handler of the request can run.  The result is that of
`checkPendingSync`, with the state once the open request has succeeded on `durable`. -/
def init (env : Env) (durable : Database) (m : OfflineSyncManager) (w : World) :
    Except String Unit × OfflineSyncManager × World :=
  let r := checkPendingSync env m w
  (r.1, initDatabaseOnSuccess r.2.1 durable, r.2.2)

/-- `new OfflineSyncManager()` with `navigator.onLine` as given, on a browser whose database
`BYAMN_Offline` holds `durable`. -/
def construct (env : Env) (navigatorOnLine : Bool) (durable : Database) (w : World) :
    Except String Unit × OfflineSyncManager × World :=
  init env durable (constructFields navigatorOnLine) w

/-! ## The object store `courseProgress` -/

/-- The primary key `[userId, courseId, lessonId]`; array keys compare element by element and
strings character by character. -/
def ProgressRecord.key (r : ProgressRecord) : List (List Char) :=
  [r.userId.toList, r.courseId.toList, r.lessonId.toList]

/-- The call `store.put(progressData)` on the records in ascending key order. -/
def putProgress (r : ProgressRecord) : List ProgressRecord → List ProgressRecord
  | [] => [r]
  | x :: xs =>
    if r.key < x.key then r :: x :: xs
    else if r.key = x.key then r :: xs
    else x :: putProgress r xs

/-- `storeLocalProgress(userId, courseId, lessonId, progress, timeSpent)`; `now` is the instant
`new Date()` reads. -/
def storeLocalProgress (m : OfflineSyncManager) (userId courseId lessonId : String)
    (progress timeSpent now : Nat) : Except String OfflineSyncManager :=
  match m.db with
  | none => .error notInitialized
  | some db =>
    let progressData : ProgressRecord :=
      { userId := userId, courseId := courseId, lessonId := lessonId, progress := progress,
        timeSpent := timeSpent, lastUpdated := now }
    .ok { m with db := some { db with courseProgress := putProgress progressData db.courseProgress } }

/-- `getLocalProgress(userId, courseId)`: `index.getAll(userId)` yields the records of that user
in primary-key order, which are then filtered by course. -/
def getLocalProgress (m : OfflineSyncManager) (userId courseId : String) :
    Except String (List ProgressRecord) :=
  match m.db with
  | none => .error notInitialized
  | some db =>
    let allProgress := db.courseProgress.filter (fun p => p.userId == userId)
    .ok (allProgress.filter (fun p => p.courseId == courseId))

/-- The records of the progress cache behind the manager's handle (none while it is unset). -/
def progressRecords (m : OfflineSyncManager) : List ProgressRecord :=
  match m.db with
  | none => []
  | some db => db.courseProgress

/-- Invariant of the `courseProgress` store: keys strictly ascending. -/
def ProgressWF (l : List ProgressRecord) : Prop :=
  l.Pairwise (fun (a b : ProgressRecord) => a.key < b.key)

instance decidableProgressWF (l : List ProgressRecord) : Decidable (ProgressWF l) :=
  inferInstanceAs (Decidable (l.Pairwise (fun (a b : ProgressRecord) => a.key < b.key)))

/-! ## Sync status and runs of the manager -/

/-- The object `getSyncStatus()` returns. -/
structure SyncStatus where
  isOnline : Bool
  hasPendingSync : Bool
deriving DecidableEq, Repr

/-- `getSyncStatus()`: it looks at the field `syncQueue`, not at the database. -/
def getSyncStatus (m : OfflineSyncManager) : SyncStatus :=
  { isOnline := m.isOnline, hasPendingSync := decide (m.syncQueue.length > 0) }

/-- A call on the manager, or a connectivity event delivered to it. -/
inductive Action where
  | queueProgressUpdate (progressData : ProgressData) (now : Nat)
  | addToSyncQueue (item : NewSyncItem)
  | processSyncQueue
  | handleOnline
  | handleOffline
deriving DecidableEq, Repr

/-- The manager and the world after one action; a rejected `addToSyncQueue` changes nothing. -/
def step (env : Env) (a : Action) (st : OfflineSyncManager × World) :
    OfflineSyncManager × World :=
  match a with
  | .queueProgressUpdate progressData now =>
    (queueProgressUpdate env st.1 st.2 progressData now).2
  | .addToSyncQueue item =>
    match addToSyncQueue st.1 item with
    | .ok (_, m1) => (m1, st.2)
    | .error _ => st
  | .processSyncQueue => (processSyncQueue env st.1 st.2).2
  | .handleOnline => handleOnline env st.1 st.2
  | .handleOffline => handleOffline env st.1 st.2

/-- The manager and the world after a sequence of actions, first action first. -/
def run (env : Env) : List Action → OfflineSyncManager × World → OfflineSyncManager × World
  | [], st => st
  | a :: rest, st => run env rest (step env a st)

/-! ## Concrete states used to exercise the theorems -/

/-- A database whose queue holds two records: record 1 (later timestamp) has failed 4 times,
record 2 (earlier timestamp) once. -/
def exampleDatabase : Database :=
  { syncQueue :=
      { records := [{ id := 1, payload := .unknown "a", timestamp := 7, attempts := 4 },
                    { id := 2, payload := .unknown "b", timestamp := 3, attempts := 1 }],
        nextKey := 3 },
    courseProgress := [] }

/-- An online manager whose handle is open on `exampleDatabase`. -/
def exampleManager : OfflineSyncManager :=
  { isOnline := true, syncQueue := [], db := some exampleDatabase }

/-- A world in which nothing has happened yet. -/
def World.initial : World :=
  { calls := [], notifications := [] }

/-- An environment with every global present; user `u1` is enrolled in courses `c0` and `c1`,
and the backend rejects `updateLessonProgress` for the lesson `bad` and accepts all else. -/
def exampleEnv : Env :=
  { hasFirebaseServices := true,
    hasUpdateLessonProgress := true,
    hasUpdateCourseCompletionAnalytics := true,
    hasUpdateDoc := true,
    hasShowNotification := true,
    getUserEnrollments := fun _ userId =>
      if userId = "u1" then .ok [{ id := "e0", courseId := "c0" }, { id := "e1", courseId := "c1" }]
      else .ok [],
    respond := fun _ c =>
      match c with
      | .updateLessonProgress _ lessonId _ =>
        if lessonId = "bad" then .error "unavailable" else .ok ()
      | _ => .ok (),
    clock := fun calls => calls.length }

/-- The first queued item, whose backend call fails. -/
def failingItem : SyncItem :=
  { id := 1,
    payload := .progress_update
      { userId := "u1", courseId := "c1", lessonId := "bad", progress := 40, timeSpent := 10 },
    timestamp := 1, attempts := 0 }

/-- The second queued item, whose backend calls succeed. -/
def succeedingItem : SyncItem :=
  { id := 2,
    payload := .progress_update
      { userId := "u1", courseId := "c1", lessonId := "l1", progress := 100, timeSpent := 300 },
    timestamp := 2, attempts := 0 }

/-- A database whose queue holds `failingItem` and then `succeedingItem`. -/
def mixedDatabase : Database :=
  { syncQueue := { records := [failingItem, succeedingItem], nextKey := 3 },
    courseProgress := [] }

/-- An online manager whose handle is open on `mixedDatabase`. -/
def mixedManager : OfflineSyncManager :=
  { isOnline := true, syncQueue := [], db := some mixedDatabase }

/-- The environment of `exampleEnv` with a backend that accepts every call. -/
def reliableEnv : Env :=
  { exampleEnv with respond := fun _ _ => .ok () }

/-- An offline manager whose handle is open on a fresh database. -/
def offlineEmptyManager : OfflineSyncManager :=
  { isOnline := false, syncQueue := [],
    db := some { syncQueue := SyncStore.empty, courseProgress := [] } }

/-- The payload of the scenario: lesson `l1` of course `c1` finished by user `u1`. -/
def scenarioProgress : ProgressData :=
  { userId := "u1", courseId := "c1", lessonId := "l1", progress := 100, timeSpent := 300 }

/-- A progress update of user `u2`, who has no enrollment at all. -/
def orphanProgress : SyncItem :=
  { id := 1,
    payload := .progress_update
      { userId := "u2", courseId := "c1", lessonId := "l1", progress := 50, timeSpent := 20 },
    timestamp := 1, attempts := 0 }

/-- A course completion of user `u2`, who has no enrollment at all. -/
def orphanCompletion : SyncItem :=
  { id := 2,
    payload := .course_completion
      { userId := "u2", courseId := "c1", certificateId := "cert-1" },
    timestamp := 2, attempts := 0 }

/-- An online manager whose queue holds the two items of user `u2`. -/
def orphanManager : OfflineSyncManager :=
  { isOnline := true, syncQueue := [],
    db := some { syncQueue := { records := [orphanProgress, orphanCompletion], nextKey := 3 },
                 courseProgress := [] } }

/-- A manager whose progress cache holds two lessons of course `c1` for `u1` and one lesson
for `u2`. -/
def cacheManager : OfflineSyncManager :=
  { isOnline := false, syncQueue := [],
    db := some
      { syncQueue := SyncStore.empty,
        courseProgress :=
          [{ userId := "u1", courseId := "c1", lessonId := "l1", progress := 10, timeSpent := 5,
             lastUpdated := 1 },
           { userId := "u1", courseId := "c1", lessonId := "l3", progress := 30, timeSpent := 7,
             lastUpdated := 2 },
           { userId := "u2", courseId := "c1", lessonId := "l1", progress := 90, timeSpent := 9,
             lastUpdated := 3 }] } }

end OfflineSync

/-!
# Learning challenges (`assets/js/challenges.js`)

A shallow embedding of the class `LearningChallenges`.  Objects used as maps (`userProgress`, a
user's map of challenge entries, `localStorage`) are functions from keys to optional values.
Numbers (`goal`, `progress`, `value`) are integers, added exactly: the embedding covers the
integer values on which the additions of the source do not round.  The instants `new Date()`
reads are parameters; one call reads one instant.  A `TypeError` raised by reading a property of
`undefined` is an `Except.error`.
-/

namespace Challenges

/-! ## Data model -/

/-- An entry `userProgress[userId][challengeId]`. -/
structure ChallengeProgress where
  progress : Int
  completed : Bool
  completedAt : Option Nat
deriving DecidableEq, Repr

/-- What the property `progress` of a challenge can hold: a number, or the object that
`updateChallengesProgress` reads off `userProgress[challenge.id].progress`. -/
inductive ProgressValue where
  | number (n : Int)
  | object (entry : ChallengeProgress)
deriving DecidableEq, Repr

/-- An element of `currentChallenges`. -/
structure Challenge where
  id : String
  title : String
  description : String
  type : String
  goal : Int
  unit : String
  reward : String
  icon : String
  progress : ProgressValue
  expires : Nat
deriving DecidableEq, Repr

/-- A user's map from challenge id to entry: a value `userProgress[userId]`. -/
abbrev UserMap := String → Option ChallengeProgress

/-- The object `userProgress`. -/
abbrev ProgressMap := String → Option UserMap

/-- The fields of a `LearningChallenges`. -/
structure LearningChallenges where
  currentChallenges : List Challenge
  userProgress : ProgressMap

/-- The globals `getCurrentUserId` and `trackChallengeCompletion` look at: whether
`firebaseServices.auth` is there, its `currentUser` (as the `uid`), and whether
`firebaseServices.analytics` is there. -/
structure Session where
  hasAuth : Bool
  currentUser : Option String
  hasAnalytics : Bool
deriving DecidableEq, Repr

/-- The celebration `showChallengeCompletion` puts on the page. -/
structure Celebration where
  challengeId : String
  title : String
  reward : String
deriving DecidableEq, Repr

/-- The event `trackChallengeCompletion` logs. -/
structure CompletionEvent where
  challengeId : String
  userId : String
  timestamp : Nat
deriving DecidableEq, Repr

/-- What the tracker leaves outside itself: `localStorage` (the value stored under
`challenges_progress_` followed by the user id, by user id), the celebrations shown and the
analytics events logged, oldest first. -/
structure Page where
  localStorage : String → Option ProgressMap
  celebrations : List Celebration
  events : List CompletionEvent

/-! ## The tracker -/

/-- `getCurrentUserId()`. -/
def getCurrentUserId (s : Session) : String :=
  if s.hasAuth then
    match s.currentUser with
    | some uid => uid
    | none => "guest"
  else "guest"

/-- The list `initializeChallenges` assigns; `nextWeek` and `nextMonth` are the dates
`getNextWeekDate()` and `getNextMonthDate()` return. -/
def initialChallenges (nextWeek nextMonth : Nat) : List Challenge :=
  [{ id := "weekly_lesson_streak", title := "7-Day Learning Streak",
     description := "Complete at least one lesson every day for 7 consecutive days",
     type := "weekly", goal := 7, unit := "days", reward := "Streak Master Badge",
     icon := "🔥", progress := .number 0, expires := nextWeek },
   { id := "weekly_course_completion", title := "Course Completion Champion",
     description := "Complete 2 courses this week",
     type := "weekly", goal := 2, unit := "courses", reward := "Completion Expert Badge",
     icon := "🏆", progress := .number 0, expires := nextWeek },
   { id := "weekly_study_time", title := "Study Marathon",
     description := "Spend 5 hours learning this week",
     type := "weekly", goal := 5, unit := "hours", reward := "Dedicated Learner Badge",
     icon := "⏰", progress := .number 0, expires := nextWeek },
   { id := "monthly_community", title := "Community Contributor",
     description := "Share 3 certificates or achievements this month",
     type := "monthly", goal := 3, unit := "shares", reward := "Community Star Badge",
     icon := "🌟", progress := .number 0, expires := nextMonth }]

/-- `updateChallengesProgress()`: it indexes `userProgress` by the challenge id. -/
def updateChallengesProgress (t : LearningChallenges) : LearningChallenges :=
  { t with currentChallenges := t.currentChallenges.map (fun challenge =>
      match t.userProgress challenge.id with
      | some userMap =>
        { challenge with progress :=
            match userMap "progress" with
            | some entry => .object entry
            | none => .number 0 }
      | none => challenge) }

/-- `loadUserProgress()`. -/
def loadUserProgress (s : Session) (t : LearningChallenges) (page : Page) : LearningChallenges :=
  let userId := getCurrentUserId s
  if userId = "" then t
  else
    match page.localStorage userId with
    | some savedProgress => updateChallengesProgress { t with userProgress := savedProgress }
    | none => t

/-- `saveUserProgress()`. -/
def saveUserProgress (s : Session) (t : LearningChallenges) (page : Page) : Page :=
  let userId := getCurrentUserId s
  if userId = "" then page
  else
    { page with localStorage := fun key =>
        if key = userId then some t.userProgress else page.localStorage key }

/-- `new LearningChallenges()`: the constructor and `initializeChallenges()`. -/
def construct (s : Session) (page : Page) (nextWeek nextMonth : Nat) : LearningChallenges :=
  loadUserProgress s
    { currentChallenges := initialChallenges nextWeek nextMonth, userProgress := fun _ => none }
    page

/-- The table `activityMap` of `shouldUpdateChallenge`. -/
def activityMap (challengeId : String) : Option String :=
  if challengeId = "weekly_lesson_streak" then some "lesson_complete"
  else if challengeId = "weekly_course_completion" then some "course_complete"
  else if challengeId = "weekly_study_time" then some "study_time"
  else if challengeId = "monthly_community" then some "certificate_share"
  else none

/-- `shouldUpdateChallenge(challenge, activityType)`. -/
def shouldUpdateChallenge (challenge : Challenge) (activityType : String) : Bool :=
  activityMap challenge.id == some activityType

/-- The assignment `userProgress[userId][challengeId] = entry` when `userProgress[userId]` is
`userMap`. -/
def setEntry (userProgress : ProgressMap) (userMap : UserMap) (userId challengeId : String)
    (entry : ChallengeProgress) : ProgressMap :=
  fun u =>
    if u = userId then some (fun c => if c = challengeId then some entry else userMap c)
    else userProgress u

/-- The assignment `challenge.progress = value` on `currentChallenges.find(c => c.id === id)`. -/
def setChallengeProgress (challengeId : String) (value : ProgressValue) :
    List Challenge → List Challenge
  | [] => []
  | c :: cs =>
    if c.id = challengeId then { c with progress := value } :: cs
    else c :: setChallengeProgress challengeId value cs

/-- The error of reading or writing a property of `undefined`. -/
def typeError : String := "TypeError"

/-- `updateChallengeProgress(challengeId, value)`.  A missing entry is created with progress 0
and not completed, so it is then incremented; an entry found completed leaves all as it is. -/
def updateChallengeProgress (s : Session) (t : LearningChallenges) (challengeId : String)
    (value : Int) : Except String LearningChallenges :=
  let userId := getCurrentUserId s
  match t.userProgress userId with
  | none => .error typeError
  | some userMap =>
    let entry : ChallengeProgress :=
      match userMap challengeId with
      | some e => e
      | none => { progress := 0, completed := false, completedAt := none }
    if !entry.completed then
      let entry1 := { entry with progress := entry.progress + value }
      .ok { currentChallenges :=
              setChallengeProgress challengeId (.number entry1.progress) t.currentChallenges,
            userProgress := setEntry t.userProgress userMap userId challengeId entry1 }
    else .ok t

/-- `showChallengeCompletion(challengeId)`: the celebration, if the challenge is found. -/
def showChallengeCompletion (t : LearningChallenges) (page : Page) (challengeId : String) :
    Page :=
  match t.currentChallenges.find? (fun c => c.id == challengeId) with
  | none => page
  | some challenge =>
    { page with celebrations := page.celebrations ++
        [{ challengeId := challengeId, title := challenge.title, reward := challenge.reward }] }

/-- `trackChallengeCompletion(challengeId)`. -/
def trackChallengeCompletion (s : Session) (page : Page) (challengeId : String) (now : Nat) :
    Page :=
  if s.hasAnalytics then
    { page with events := page.events ++
        [{ challengeId := challengeId, userId := getCurrentUserId s, timestamp := now }] }
  else page

/-- `completeChallenge(challengeId)`; `now` is the instant `new Date()` reads. -/
def completeChallenge (s : Session) (t : LearningChallenges) (page : Page)
    (challengeId : String) (now : Nat) : Except String (LearningChallenges × Page) :=
  let userId := getCurrentUserId s
  if userId = "" then .ok (t, page)
  else
    match t.userProgress userId with
    | none => .error typeError
    | some userMap =>
      match userMap challengeId with
      | none => .error typeError
      | some entry =>
        let entry1 := { entry with completed := true, completedAt := some now }
        let t1 := { t with
          userProgress := setEntry t.userProgress userMap userId challengeId entry1 }
        let page1 := showChallengeCompletion t1 page challengeId
        let page2 := saveUserProgress s t1 page1
        .ok (t1, trackChallengeCompletion s page2 challengeId now)

/-- The `forEach` of `checkChallengeCompletion` over the challenges still to visit. -/
def checkLoop (s : Session) (now : Nat) :
    List Challenge → LearningChallenges → Page → Except String (LearningChallenges × Page)
  | [], t, page => .ok (t, page)
  | challenge :: rest, t, page =>
    match t.userProgress (getCurrentUserId s) with
    | none => .error typeError
    | some userMap =>
      match userMap challenge.id with
      | some progress =>
        if !progress.completed && decide (progress.progress ≥ challenge.goal) then
          match completeChallenge s t page challenge.id now with
          | .ok (t1, page1) => checkLoop s now rest t1 page1
          | .error e => .error e
        else checkLoop s now rest t page
      | none => checkLoop s now rest t page

/-- `checkChallengeCompletion()`. -/
def checkChallengeCompletion (s : Session) (t : LearningChallenges) (page : Page) (now : Nat) :
    Except String (LearningChallenges × Page) :=
  if getCurrentUserId s = "" then .ok (t, page)
  else checkLoop s now t.currentChallenges t page

/-- The `forEach` of `recordActivity` over the challenges still to visit. -/
def recordLoop (s : Session) (activityType : String) (value : Int) :
    List Challenge → LearningChallenges → Except String LearningChallenges
  | [], t => .ok t
  | challenge :: rest, t =>
    if shouldUpdateChallenge challenge activityType then
      match updateChallengeProgress s t challenge.id value with
      | .ok t1 => recordLoop s activityType value rest t1
      | .error e => .error e
    else recordLoop s activityType value rest t

/-- `recordActivity(activityType, value)`. -/
def recordActivity (s : Session) (t : LearningChallenges) (page : Page)
    (activityType : String) (value : Int) (now : Nat) :
    Except String (LearningChallenges × Page) :=
  let userId := getCurrentUserId s
  if userId = "" then .ok (t, page)
  else
    let t0 : LearningChallenges :=
      match t.userProgress userId with
      | some _ => t
      | none =>
        { t with userProgress := fun u => if u = userId then some (fun _ => none)
                                          else t.userProgress u }
    match recordLoop s activityType value t0.currentChallenges t0 with
    | .error e => .error e
    | .ok t1 => checkChallengeCompletion s t1 (saveUserProgress s t1 page) now

/-- `isChallengeExpired(challenge)`; `now` is the instant `new Date()` reads. -/
def isChallengeExpired (challenge : Challenge) (now : Nat) : Bool :=
  decide (now > challenge.expires)

/-- `getActiveChallenges()`, with the tracker as the call leaves it. -/
def getActiveChallenges (t : LearningChallenges) (now : Nat) :
    List Challenge × LearningChallenges :=
  (t.currentChallenges.filter (fun challenge => !isChallengeExpired challenge now), t)

/-! ## Reading the state, and runs -/

/-- The entry of a challenge for a user, if the user has a map and the map has the entry. -/
def entryOf (t : LearningChallenges) (userId challengeId : String) : Option ChallengeProgress :=
  match t.userProgress userId with
  | some userMap => userMap challengeId
  | none => none

/-- A run of `recordActivity(activityType, value)` calls, one for each instant of the list. -/
def recordTimes (s : Session) (activityType : String) (value : Int) :
    List Nat → LearningChallenges × Page → Except String (LearningChallenges × Page)
  | [], st => .ok st
  | now :: rest, st =>
    match recordActivity s st.1 st.2 activityType value now with
    | .ok st1 => recordTimes s activityType value rest st1
    | .error e => .error e

/-- An entry as `completeChallenge` leaves it. -/
def completeEntry (entry : ChallengeProgress) (now : Nat) : ChallengeProgress :=
  { entry with completed := true, completedAt := some now }

/-- The test of `checkChallengeCompletion` on the entry a user's map has for a challenge:
`progress && !progress.completed && progress.progress >= challenge.goal`. -/
def qualifies (userMap : UserMap) (challengeId : String) (goal : Int) : Bool :=
  match userMap challengeId with
  | some progress => !progress.completed && decide (progress.progress ≥ goal)
  | none => false

/-- The same test on an entry, or on the absence of one. -/
def entryQualifies (goal : Int) : Option ChallengeProgress → Bool
  | some progress => !progress.completed && decide (progress.progress ≥ goal)
  | none => false

/-- What one visit of `checkChallengeCompletion` makes of a challenge's entry. -/
def afterCheck (goal : Int) (now : Nat) : Option ChallengeProgress → Option ChallengeProgress
  | some entry =>
    if !entry.completed && decide (entry.progress ≥ goal) then some (completeEntry entry now)
    else some entry
  | none => none

/-- What one visit of `recordActivity` makes of a challenge's entry; `update` is the result
of `shouldUpdateChallenge`. -/
def afterRecord (update : Bool) (value : Int) (entry : Option ChallengeProgress) :
    Option ChallengeProgress :=
  if update then
    match entry with
    | some e => if !e.completed then some { e with progress := e.progress + value } else some e
    | none => some { progress := 0 + value, completed := false, completedAt := none }
  else entry

/-- No entry of the user for a listed challenge is waiting to be completed: each is completed
or below the goal.  Every `recordActivity` ends in this condition. -/
def Settled (t : LearningChallenges) (userId : String) : Prop :=
  ∀ c ∈ t.currentChallenges, ∀ e, entryOf t userId c.id = some e →
    e.completed = true ∨ e.progress < c.goal

/-- A page with nothing stored, nothing shown and nothing logged. -/
def Page.empty : Page :=
  { localStorage := fun _ => none, celebrations := [], events := [] }

/-- A session without `firebaseServices`: the user is `guest`. -/
def guestSession : Session :=
  { hasAuth := false, currentUser := none, hasAnalytics := false }

/-- A tracker in which `guest` has reached the goal of `weekly_course_completion` without the
entry being completed yet, and is half way through `weekly_study_time`. -/
def pendingTracker : LearningChallenges :=
  { currentChallenges := initialChallenges 1000 5000,
    userProgress := fun u =>
      if u = "guest" then
        some (fun c =>
          if c = "weekly_course_completion" then
            some { progress := 2, completed := false, completedAt := none }
          else if c = "weekly_study_time" then
            some { progress := 3, completed := false, completedAt := none }
          else none)
      else none }

/-- A tracker constructed for `guest` on an empty page. -/
def freshTracker : LearningChallenges :=
  construct guestSession Page.empty 1000 5000

/-- The tracker and the page after `n` lessons completed by `guest`, at instants 10, 11, ... -/
def lessonsRecorded (n : Nat) : Except String (LearningChallenges × Page) :=
  recordTimes guestSession "lesson_complete" 1 ((List.range n).map (fun i => i + 10))
    (freshTracker, Page.empty)

end Challenges

namespace OfflineSync

/-! ## Theorems -/

/-! ### The `syncQueue` store -/

theorem SyncStore.putRecord_eq_map (y : SyncItem) (l : List SyncItem)
    (hs : l.Pairwise (fun (a b : SyncItem) => a.id < b.id)) (hy : ∃ x ∈ l, x.id = y.id) :
    SyncStore.putRecord y l = l.map (fun x => if x.id = y.id then y else x) := by
  induction l with
  | nil => obtain ⟨x, hx, _⟩ := hy; cases hx
  | cons a t ih =>
    rw [List.pairwise_cons] at hs
    obtain ⟨ha, ht⟩ := hs
    by_cases hay : a.id = y.id
    · have hmap : t.map (fun x => if x.id = y.id then y else x) = t := by
        conv_rhs => rw [← List.map_id t]
        apply List.map_congr_left
        intro b hb
        have := ha b hb
        have hne : ¬ b.id = y.id := by omega
        simp [hne]
      simp [SyncStore.putRecord, hay, hmap]
    · obtain ⟨x, hx, hxy⟩ := hy
      rcases List.mem_cons.mp hx with rfl | hxt
      · exact absurd hxy hay
      · have hlt : a.id < y.id := by have := ha x hxt; omega
        have h1 : ¬ y.id < a.id := by omega
        have h2 : ¬ y.id = a.id := fun h => hay h.symm
        simp [SyncStore.putRecord, h1, h2, hay, ih ht ⟨x, hxt, hxy⟩]

theorem SyncStore.get_of_mem (s : SyncStore)
    (hs : s.records.Pairwise (fun (a b : SyncItem) => a.id < b.id))
    (x : SyncItem) (hx : x ∈ s.records) : s.get x.id = some x := by
  unfold SyncStore.get
  generalize s.records = l at hs hx
  induction l with
  | nil => cases hx
  | cons a t ih =>
    rw [List.pairwise_cons] at hs
    rcases List.mem_cons.mp hx with rfl | hxt
    · simp
    · have hne : ¬ a.id = x.id := by have := hs.1 x hxt; omega
      simp [List.find?_cons, hne, ih hs.2 hxt]

theorem SyncStore.get_eq_none (s : SyncStore) (k : Nat) (h : ∀ x ∈ s.records, x.id ≠ k) :
    s.get k = none := by
  unfold SyncStore.get
  rw [List.find?_eq_none]
  intro x hx
  simpa using h x hx

/-- What one failed attempt does to the records of the store, for a key that is present. -/
theorem SyncStore.recordAttempt_records (s : SyncStore)
    (hs : s.records.Pairwise (fun (a b : SyncItem) => a.id < b.id))
    (x : SyncItem) (hx : x ∈ s.records) :
    (s.recordAttempt x.id).records =
      if 5 ≤ x.attempts + 1 then s.records.filter (fun y => y.id != x.id)
      else s.records.map
        (fun y => if y.id = x.id then { y with attempts := y.attempts + 1 } else y) := by
  unfold SyncStore.recordAttempt
  rw [SyncStore.get_of_mem s hs x hx]
  by_cases h : 5 ≤ x.attempts + 1
  · simp [h, SyncStore.delete]
  · simp only [ge_iff_le, h, if_false, SyncStore.put]
    rw [SyncStore.putRecord_eq_map { x with attempts := x.attempts + 1 } _ hs ⟨x, hx, rfl⟩]
    apply List.map_congr_left
    intro y hy
    by_cases hyx : y.id = x.id
    · have : y = x := by
        have h1 := SyncStore.get_of_mem s hs y hy
        rw [hyx, SyncStore.get_of_mem s hs x hx] at h1
        exact (Option.some.inj h1).symm
      simp [this]
    · simp [hyx]

theorem SyncStore.recordAttempt_absent (s : SyncStore) (k : Nat)
    (h : ∀ x ∈ s.records, x.id ≠ k) : s.recordAttempt k = s := by
  unfold SyncStore.recordAttempt
  rw [SyncStore.get_eq_none s k h]

theorem filter_id_ne_of_lt (old : List SyncItem) (n : Nat) (h : ∀ x ∈ old, x.id < n) :
    old.filter (fun y => y.id != n) = old := by
  rw [List.filter_eq_self]
  intro x hx
  have := h x hx
  simp; omega

theorem map_of_lt (old : List SyncItem) (n : Nat) (f : SyncItem → SyncItem)
    (h : ∀ x ∈ old, x.id < n) :
    old.map (fun y => if y.id = n then f y else y) = old := by
  conv_rhs => rw [← List.map_id old]
  apply List.map_congr_left
  intro x hx
  have := h x hx
  have hne : ¬ x.id = n := by omega
  simp [hne]

theorem pairwise_append_last (old : List SyncItem) (r : SyncItem)
    (hs : old.Pairwise (fun (a b : SyncItem) => a.id < b.id)) (h : ∀ x ∈ old, x.id < r.id) :
    (old ++ [r]).Pairwise (fun (a b : SyncItem) => a.id < b.id) := by
  rw [List.pairwise_append]
  refine ⟨hs, List.pairwise_singleton _ _, ?_⟩
  intro a ha b hb
  rw [List.mem_singleton] at hb
  subst hb
  exact h a ha

/-- Repeated failures of a key that is not in the queue leave the queue as it is. -/
theorem failTimes_absent (n k : Nat) (m : OfflineSyncManager) (db : Database)
    (hdb : m.db = some db) (h : ∀ x ∈ db.syncQueue.records, x.id ≠ n) :
    failTimes n k m = .ok m := by
  induction k with
  | zero => rfl
  | succ k ih =>
    have hstep : updateSyncAttempt m n = .ok m := by
      unfold updateSyncAttempt
      rw [hdb]
      simp only [SyncStore.recordAttempt_absent db.syncQueue n h]
      cases m
      simp_all
    simp only [failTimes, hstep, ih]

/-- Repeated failures of the last record of the queue: it stays, its counter rising by one a
time, until the counter would reach 5, and is gone from then on. -/
theorem failTimes_last (old : List SyncItem) (r : SyncItem)
    (hs : old.Pairwise (fun (a b : SyncItem) => a.id < b.id)) (hlt : ∀ x ∈ old, x.id < r.id) :
    ∀ (k j : Nat) (m : OfflineSyncManager) (db : Database), m.db = some db →
      db.syncQueue.records = old ++ [{ r with attempts := j }] →
      ∃ mk, failTimes r.id k m = .ok mk ∧
        queueRecords mk =
          if j + k < 5 then old ++ [{ r with attempts := j + k }]
          else if k = 0 then old ++ [{ r with attempts := j }] else old := by
  intro k
  induction k with
  | zero =>
    intro j m db hdb hrec
    refine ⟨m, rfl, ?_⟩
    simp [queueRecords, hdb, hrec]
  | succ k ih =>
    intro j m db hdb hrec
    have hpw : db.syncQueue.records.Pairwise (fun (a b : SyncItem) => a.id < b.id) := by
      rw [hrec]; exact pairwise_append_last old _ hs hlt
    have hmem : ({ r with attempts := j } : SyncItem) ∈ db.syncQueue.records := by
      rw [hrec]; simp
    have hrec1 := SyncStore.recordAttempt_records db.syncQueue hpw _ hmem
    simp only [hrec, List.filter_append, List.map_append, filter_id_ne_of_lt old r.id hlt,
      map_of_lt old r.id _ hlt] at hrec1
    simp only [failTimes, updateSyncAttempt, hdb]
    by_cases h5 : 5 ≤ j + 1
    · simp only [h5, if_true] at hrec1
      have hrec2 : (db.syncQueue.recordAttempt r.id).records = old := by
        simpa using hrec1
      have habs : ∀ x ∈ (db.syncQueue.recordAttempt r.id).records, x.id ≠ r.id := by
        rw [hrec2]; intro x hx; have := hlt x hx; omega
      refine ⟨_, failTimes_absent r.id k _
        { db with syncQueue := db.syncQueue.recordAttempt r.id } rfl habs, ?_⟩
      have h1 : ¬ j + (k + 1) < 5 := by omega
      simp [queueRecords, hrec2, h1]
    · simp only [h5, if_false] at hrec1
      have hrec2 : (db.syncQueue.recordAttempt r.id).records
          = old ++ [{ r with attempts := j + 1 }] := by
        simpa using hrec1
      obtain ⟨mk, hmk, hq⟩ := ih (j + 1)
        { m with db := some { db with syncQueue := db.syncQueue.recordAttempt r.id } }
        { db with syncQueue := db.syncQueue.recordAttempt r.id } rfl hrec2
      refine ⟨mk, hmk, ?_⟩
      rw [hq]
      have e1 : j + 1 + k = j + (k + 1) := by omega
      rw [e1]
      by_cases h6 : j + (k + 1) < 5
      · simp [h6]
      · have hk : k ≠ 0 := by omega
        simp [h6, hk]

/-! ### C1: the attempt counter and the cap of 5 -/

/-- C1. On an open, well-formed queue, `updateSyncAttempt(id)` for an item in the queue resolves;
when the incremented counter is below 5 the queue is the old one with that item's `attempts`
raised by one and every other record as it was, and when it is 5 or more the queue is the old one
without the item. Hence an item enqueued with `attempts` 0 is in the queue with `attempts = k`
after `k < 5` failures, and is absent after 5 failures and after any further one. -/
theorem updateSyncAttempt_increments_then_drops (m : OfflineSyncManager) (db : Database)
    (hdb : m.db = some db) (hwf : db.syncQueue.WF) :
    (∀ item ∈ db.syncQueue.records, ∃ m1, updateSyncAttempt m item.id = .ok m1 ∧
      (item.attempts + 1 < 5 → queueRecords m1 = db.syncQueue.records.map
        (fun y => if y.id = item.id then { item with attempts := item.attempts + 1 } else y)) ∧
      (5 ≤ item.attempts + 1 →
        queueRecords m1 = db.syncQueue.records.filter (fun y => y.id != item.id))) ∧
    (∀ new : NewSyncItem, new.attempts = 0 →
      ∃ id m0, addToSyncQueue m new = .ok (id, m0) ∧
        (∀ x ∈ db.syncQueue.records, x.id ≠ id) ∧
        ∀ k, ∃ mk, failTimes id k m0 = .ok mk ∧
          (k < 5 → queueRecords mk = db.syncQueue.records ++
            [{ id := id, payload := new.payload, timestamp := new.timestamp, attempts := k }]) ∧
          (5 ≤ k → queueRecords mk = db.syncQueue.records ∧
            ∀ x ∈ queueRecords mk, x.id ≠ id)) := by
  obtain ⟨hs, hlt⟩ := hwf
  constructor
  · intro item hitem
    refine ⟨_, by simp only [updateSyncAttempt, hdb]; rfl, ?_⟩
    have hrec := SyncStore.recordAttempt_records db.syncQueue hs item hitem
    have hmap : db.syncQueue.records.map
        (fun y => if y.id = item.id then { y with attempts := y.attempts + 1 } else y)
        = db.syncQueue.records.map
        (fun y => if y.id = item.id then { item with attempts := item.attempts + 1 } else y) := by
      apply List.map_congr_left
      intro y hy
      by_cases hyx : y.id = item.id
      · have h1 := SyncStore.get_of_mem db.syncQueue hs y hy
        rw [hyx, SyncStore.get_of_mem db.syncQueue hs item hitem] at h1
        rw [← Option.some.inj h1]
      · simp [hyx]
    constructor
    · intro h
      have h5 : ¬ 5 ≤ item.attempts + 1 := by omega
      simp only [queueRecords, hrec, h5, if_false, hmap]
    · intro h
      simp only [queueRecords, hrec, h, if_true]
  · intro new hnew
    refine ⟨db.syncQueue.nextKey, _,
      by simp only [addToSyncQueue, hdb, SyncStore.add]; rfl, ?_, ?_⟩
    · intro x hx; have := hlt x hx; omega
    · intro k
      obtain ⟨mk, hmk, hq⟩ := failTimes_last db.syncQueue.records
        { id := db.syncQueue.nextKey, payload := new.payload, timestamp := new.timestamp,
          attempts := 0 } hs hlt k 0
        { m with db := some { db with syncQueue := (db.syncQueue.add new).2 } }
        { db with syncQueue := (db.syncQueue.add new).2 } rfl (by simp [SyncStore.add, hnew])
      refine ⟨mk, hmk, ?_, ?_⟩
      · intro hk
        simp [hq, hk]
      · intro hk
        have h1 : ¬ k < 5 := by omega
        have h2 : k ≠ 0 := by omega
        have h3 : queueRecords mk = db.syncQueue.records := by simp [hq, h1, h2]
        refine ⟨h3, ?_⟩
        rw [h3]
        intro x hx; have := hlt x hx; omega

/-- C1 at a concrete queue: record 1 has failed 4 times and record 2 once; one more failure drops
record 1, and one more failure of record 2 raises it to `attempts = 2` and keeps record 1. -/
theorem updateSyncAttempt_increments_then_drops_witness :
    exampleManager.db = some exampleDatabase ∧ exampleDatabase.syncQueue.WF ∧
    (updateSyncAttempt exampleManager 1).toOption.map queueRecords
      = some [{ id := 2, payload := .unknown "b", timestamp := 3, attempts := 1 }] ∧
    ∃ m1, updateSyncAttempt exampleManager 2 = .ok m1 ∧
      queueRecords m1 =
        [{ id := 1, payload := .unknown "a", timestamp := 7, attempts := 4 },
         { id := 2, payload := .unknown "b", timestamp := 3, attempts := 2 }] := by
  refine ⟨rfl, by decide, by decide, ?_⟩
  obtain ⟨m1, h1, h2, _⟩ := (updateSyncAttempt_increments_then_drops
    exampleManager exampleDatabase rfl (by decide)).1
    { id := 2, payload := .unknown "b", timestamp := 3, attempts := 1 }
    (by simp [exampleDatabase])
  exact ⟨m1, h1, by simpa [exampleDatabase] using h2 (by decide)⟩

/-! ### One step of the drain on the records of the queue -/

theorem SyncStore.eq_of_id_eq (l : List SyncItem)
    (hs : l.Pairwise (fun (a b : SyncItem) => a.id < b.id)) (x y : SyncItem)
    (hx : x ∈ l) (hy : y ∈ l) (h : x.id = y.id) : x = y := by
  have h1 := SyncStore.get_of_mem ⟨l, 0⟩ hs x hx
  have h2 := SyncStore.get_of_mem ⟨l, 0⟩ hs y hy
  rw [h] at h1
  exact Option.some.inj (h1.symm.trans h2)

/-- The two shapes the records can have after the drain has dealt with key `k`. -/
theorem SyncStore.recordAttempt_shape (s : SyncStore)
    (hs : s.records.Pairwise (fun (a b : SyncItem) => a.id < b.id)) (k : Nat) :
    (s.recordAttempt k).records = s.records.filter (fun y => y.id != k) ∨
    (s.recordAttempt k).records = s.records.map
      (fun y => if y.id = k then { y with attempts := y.attempts + 1 } else y) := by
  cases hget : s.get k with
  | none =>
    right
    have hne : ∀ x ∈ s.records, ¬ x.id = k := by
      intro x hx
      have := List.find?_eq_none.mp hget x hx
      simpa using this
    have : s.recordAttempt k = s := by
      unfold SyncStore.recordAttempt; rw [hget]
    rw [this]
    conv_lhs => rw [← List.map_id s.records]
    apply List.map_congr_left
    intro x hx
    simp [hne x hx]
  | some x =>
    have hx : x ∈ s.records := List.mem_of_find?_eq_some hget
    have hk : x.id = k := by
      have := List.find?_some hget
      simpa using this
    subst hk
    rw [SyncStore.recordAttempt_records s hs x hx]
    by_cases h : 5 ≤ x.attempts + 1
    · left; simp [h]
    · right; simp [h]

theorem pairwise_filter_id (l : List SyncItem) (k : Nat)
    (hs : l.Pairwise (fun (a b : SyncItem) => a.id < b.id)) :
    (l.filter (fun y => y.id != k)).Pairwise (fun (a b : SyncItem) => a.id < b.id) :=
  List.Pairwise.filter _ hs

theorem pairwise_map_bump (l : List SyncItem) (k : Nat)
    (hs : l.Pairwise (fun (a b : SyncItem) => a.id < b.id)) :
    (l.map (fun y => if y.id = k then { y with attempts := y.attempts + 1 } else y)).Pairwise
      (fun (a b : SyncItem) => a.id < b.id) := by
  rw [List.pairwise_map]
  refine hs.imp ?_
  intro a b hab
  by_cases ha : a.id = k <;> by_cases hb : b.id = k <;> simp [ha, hb] <;> omega

theorem mem_filter_id_of_ne (l : List SyncItem) (k : Nat) (x : SyncItem) (hx : x.id ≠ k) :
    x ∈ l.filter (fun y => y.id != k) ↔ x ∈ l := by
  simp [List.mem_filter, hx]

theorem mem_map_bump_of_ne (l : List SyncItem) (k : Nat) (x : SyncItem) (hx : x.id ≠ k) :
    x ∈ l.map (fun y => if y.id = k then { y with attempts := y.attempts + 1 } else y)
      ↔ x ∈ l := by
  rw [List.mem_map]
  constructor
  · rintro ⟨y, hy, hyx⟩
    by_cases hyk : y.id = k
    · rw [if_pos hyk] at hyx
      exact absurd (by rw [← hyx]; exact hyk) hx
    · rw [if_neg hyk] at hyx
      exact hyx ▸ hy
  · intro h
    exact ⟨x, h, by simp [hx]⟩

theorem id_mem_map_bump (l : List SyncItem) (k i : Nat)
    (h : ∀ x ∈ l, x.id ≠ i) :
    ∀ x ∈ l.map (fun y => if y.id = k then { y with attempts := y.attempts + 1 } else y),
      x.id ≠ i := by
  intro x hx
  rw [List.mem_map] at hx
  obtain ⟨y, hy, hyx⟩ := hx
  have := h y hy
  by_cases hyk : y.id = k
  · rw [if_pos hyk] at hyx; rw [← hyx]; exact this
  · rw [if_neg hyk] at hyx; rw [← hyx]; exact this

/-! ### The loop of the drain on an open database -/

theorem World.call_calls (w : World) (c : BackendCall) : (w.call c).calls = w.calls ++ [c] :=
  rfl

/-- Processing one item only appends to the backend calls. -/
theorem processSyncItem_calls (env : Env) (w : World) (item : SyncItem) :
    w.calls <+: (processSyncItem env w item).2.calls := by
  unfold processSyncItem
  split
  · unfold syncProgressUpdate
    dsimp only
    repeat' split
    all_goals simp [World.call_calls, List.append_assoc]
  · unfold syncCourseCompletion
    dsimp only
    repeat' split
    all_goals simp [World.call_calls, List.append_assoc]
  · simp

/-- One turn of the loop on an open database: the item is deleted when its processing succeeded
and has its failure recorded otherwise, and the loop goes on with the rest. -/
theorem processItems_cons_open (env : Env) (item : SyncItem) (rest : List SyncItem)
    (m : OfflineSyncManager) (w : World) (db : Database) (hdb : m.db = some db) :
    processItems env (item :: rest) m w =
      processItems env rest
        { m with db := some { db with syncQueue :=
            match (processSyncItem env w item).1 with
            | .ok _ => db.syncQueue.delete item.id
            | .error _ => db.syncQueue.recordAttempt item.id } }
        (processSyncItem env w item).2 := by
  simp only [processItems, removeFromSyncQueue, updateSyncAttempt, hdb]
  cases (processSyncItem env w item).1 <;> rfl

/-- On an open database the loop never leaves early; it keeps the keys ascending, touches only
records whose key is among the items it was given, and never brings a key back. -/
theorem processItems_open (env : Env) :
    ∀ (l : List SyncItem) (m : OfflineSyncManager) (w : World) (db : Database),
      m.db = some db →
      db.syncQueue.records.Pairwise (fun (a b : SyncItem) => a.id < b.id) →
      ∃ m1 w1 db1, processItems env l m w = (.ok (), m1, w1) ∧ m1.db = some db1 ∧
        db1.syncQueue.records.Pairwise (fun (a b : SyncItem) => a.id < b.id) ∧
        (∀ x : SyncItem, x.id ∉ l.map (fun y => y.id) →
          (x ∈ db1.syncQueue.records ↔ x ∈ db.syncQueue.records)) ∧
        (∀ i, (∀ x ∈ db.syncQueue.records, x.id ≠ i) →
          ∀ x ∈ db1.syncQueue.records, x.id ≠ i) ∧
        w.calls <+: w1.calls := by
  intro l
  induction l with
  | nil =>
    intro m w db hdb hs
    exact ⟨m, w, db, rfl, hdb, hs, fun _ _ => Iff.rfl, fun _ h => h, List.prefix_refl _⟩
  | cons item rest ih =>
    intro m w db hdb hs
    rw [processItems_cons_open env item rest m w db hdb]
    have hext0 := processSyncItem_calls env w item
    have hshape : ∀ s2 : SyncStore,
        (s2 = db.syncQueue.delete item.id ∨ s2 = db.syncQueue.recordAttempt item.id) →
        s2.records = db.syncQueue.records.filter (fun y => y.id != item.id) ∨
        s2.records = db.syncQueue.records.map
          (fun y => if y.id = item.id then { y with attempts := y.attempts + 1 } else y) := by
      intro s2 h2
      rcases h2 with rfl | rfl
      · left; rfl
      · exact SyncStore.recordAttempt_shape db.syncQueue hs item.id
    generalize hs2 : (match (processSyncItem env w item).1 with
            | .ok _ => db.syncQueue.delete item.id
            | .error _ => db.syncQueue.recordAttempt item.id) = s2
    have hs2c : s2 = db.syncQueue.delete item.id ∨ s2 = db.syncQueue.recordAttempt item.id := by
      rw [← hs2]
      cases (processSyncItem env w item).1 <;> simp
    have hsh := hshape s2 hs2c
    have hpw : s2.records.Pairwise (fun (a b : SyncItem) => a.id < b.id) := by
      rcases hsh with h | h <;> rw [h]
      · exact pairwise_filter_id _ _ hs
      · exact pairwise_map_bump _ _ hs
    obtain ⟨m1, w1, db1, hrun, hdb1, hpw1, hframe, habs, hext1⟩ :=
      ih { m with db := some { db with syncQueue := s2 } } (processSyncItem env w item).2
        { db with syncQueue := s2 } rfl hpw
    refine ⟨m1, w1, db1, hrun, hdb1, hpw1, ?_, ?_, hext0.trans hext1⟩
    · intro x hx
      simp only [List.map_cons, List.mem_cons, not_or] at hx
      rw [hframe x hx.2]
      rcases hsh with h | h <;> simp only [h]
      · exact mem_filter_id_of_ne _ _ _ hx.1
      · exact mem_map_bump_of_ne _ _ _ hx.1
    · intro i hi
      apply habs i
      rcases hsh with h | h <;> simp only [h]
      · intro x hx
        exact hi x (List.mem_of_mem_filter hx)
      · exact id_mem_map_bump _ _ _ hi

/-- The loop over `pre ++ rest` on an open database is the loop over `pre` followed by the loop
over `rest`. -/
theorem processItems_append_open (env : Env) :
    ∀ (pre rest : List SyncItem) (m : OfflineSyncManager) (w : World) (db : Database),
      m.db = some db →
      processItems env (pre ++ rest) m w =
        processItems env rest (processItems env pre m w).2.1 (processItems env pre m w).2.2 := by
  intro pre
  induction pre with
  | nil => intro rest m w db _; rfl
  | cons item pre ih =>
    intro rest m w db hdb
    rw [List.cons_append, processItems_cons_open env item _ m w db hdb,
      processItems_cons_open env item _ m w db hdb]
    exact ih rest _ _ _ rfl

theorem showSyncCompleteNotification_calls (env : Env) (w : World) (n : Nat) :
    (showSyncCompleteNotification env w n).calls = w.calls := by
  unfold showSyncCompleteNotification World.notify
  split <;> [split; skip] <;> rfl

/-- An online drain on an open database whose loop ran to its end. -/
theorem processSyncQueue_open (env : Env) (m m1 : OfflineSyncManager) (w w1 : World)
    (pending : List SyncItem) (hon : m.isOnline = true)
    (hpend : getPendingSyncItems m = .ok pending)
    (hrun : processItems env pending m w = (.ok (), m1, w1)) :
    processSyncQueue env m w =
      (.ok (), m1, showSyncCompleteNotification env w1 pending.length) := by
  simp only [processSyncQueue, hon, hpend, hrun, Bool.not_true, Bool.false_eq_true, if_false]

/-- The loop from the moment it reaches `item`, a record of the queue that is not among the
items still to come. -/
theorem processItems_from_item (env : Env) (item : SyncItem) (post : List SyncItem)
    (m1 : OfflineSyncManager) (w1 : World) (db1 : Database) (hdb1 : m1.db = some db1)
    (hpw1 : db1.syncQueue.records.Pairwise (fun (a b : SyncItem) => a.id < b.id))
    (hmem : item ∈ db1.syncQueue.records) (hpost : item.id ∉ post.map (fun y => y.id)) :
    ∃ m3 w3, processItems env (item :: post) m1 w1 = (.ok (), m3, w3) ∧
      (processSyncItem env w1 item).2.calls <+: w3.calls ∧
      ((processSyncItem env w1 item).1 = .ok () → ∀ x ∈ queueRecords m3, x.id ≠ item.id) ∧
      (∀ e, (processSyncItem env w1 item).1 = .error e →
        (item.attempts + 1 < 5 → ∀ x : SyncItem, x.id = item.id →
          (x ∈ queueRecords m3 ↔ x = { item with attempts := item.attempts + 1 })) ∧
        (5 ≤ item.attempts + 1 → ∀ x ∈ queueRecords m3, x.id ≠ item.id)) := by
  rw [processItems_cons_open env item post m1 w1 db1 hdb1]
  have habsent : ∀ x ∈ db1.syncQueue.records.filter (fun y => y.id != item.id),
      x.id ≠ item.id := by
    intro x hx
    simpa using (List.mem_filter.mp hx).2
  cases hres : (processSyncItem env w1 item).1 with
  | ok u =>
    simp only []
    obtain ⟨m3, w3, db3, hrun3, hdb3, _, _, habs3, hext3⟩ := processItems_open env post
      { m1 with db := some { db1 with syncQueue := db1.syncQueue.delete item.id } }
      (processSyncItem env w1 item).2
      { db1 with syncQueue := db1.syncQueue.delete item.id } rfl
      (pairwise_filter_id _ _ hpw1)
    refine ⟨m3, w3, hrun3, hext3, ?_, ?_⟩
    · intro _
      simp only [queueRecords, hdb3]
      exact habs3 item.id habsent
    · intro e he
      cases he
  | error e0 =>
    simp only []
    have hrec := SyncStore.recordAttempt_records db1.syncQueue hpw1 item hmem
    have hpw2 : (db1.syncQueue.recordAttempt item.id).records.Pairwise
        (fun (a b : SyncItem) => a.id < b.id) := by
      rcases SyncStore.recordAttempt_shape db1.syncQueue hpw1 item.id with h | h <;> rw [h]
      · exact pairwise_filter_id _ _ hpw1
      · exact pairwise_map_bump _ _ hpw1
    obtain ⟨m3, w3, db3, hrun3, hdb3, hpw3, hframe3, habs3, hext3⟩ := processItems_open env post
      { m1 with db := some { db1 with syncQueue := db1.syncQueue.recordAttempt item.id } }
      (processSyncItem env w1 item).2
      { db1 with syncQueue := db1.syncQueue.recordAttempt item.id } rfl hpw2
    refine ⟨m3, w3, hrun3, hext3, ?_, ?_⟩
    · intro h; cases h
    · intro e _
      simp only [queueRecords, hdb3]
      constructor
      · intro hlt x hx
        have h5 : ¬ 5 ≤ item.attempts + 1 := by omega
        simp only [h5, if_false] at hrec
        have hin2 : ({ item with attempts := item.attempts + 1 } : SyncItem) ∈
            (db1.syncQueue.recordAttempt item.id).records := by
          rw [hrec, List.mem_map]
          exact ⟨item, hmem, by simp⟩
        have hin3 : ({ item with attempts := item.attempts + 1 } : SyncItem) ∈
            db3.syncQueue.records :=
          (hframe3 { item with attempts := item.attempts + 1 } hpost).mpr hin2
        constructor
        · intro hx3
          exact SyncStore.eq_of_id_eq _ hpw3 _ _ hx3 hin3 hx
        · intro hxe
          rw [hxe]; exact hin3
      · intro hge
        simp only [hge, if_true] at hrec
        apply habs3 item.id
        simp only []
        rw [hrec]
        exact habsent

theorem nodup_ids_of_pairwise (l : List SyncItem)
    (hs : l.Pairwise (fun (a b : SyncItem) => a.id < b.id)) :
    (l.map (fun y => y.id)).Nodup := by
  unfold List.Nodup
  rw [List.pairwise_map]
  exact hs.imp (fun h => Nat.ne_of_lt h)

/-- The loop over the pending list of an open, well-formed queue, seen from one of its items:
the loop reaches it, runs to its end, and leaves the item's id as its own outcome decides. -/
theorem processItems_pending_item (env : Env) (m : OfflineSyncManager) (w : World)
    (db : Database) (hdb : m.db = some db) (hwf : db.syncQueue.WF)
    (pre post : List SyncItem) (it : SyncItem)
    (hpend : getPendingSyncItems m = .ok (pre ++ it :: post)) :
    ∃ m1 w1 m3 w3, processItems env pre m w = (.ok (), m1, w1) ∧
      processItems env (pre ++ it :: post) m w = (.ok (), m3, w3) ∧
      (processSyncItem env w1 it).2.calls <+: w3.calls ∧
      ((processSyncItem env w1 it).1 = .ok () → ∀ x ∈ queueRecords m3, x.id ≠ it.id) ∧
      (∀ e, (processSyncItem env w1 it).1 = .error e →
        (it.attempts + 1 < 5 → ∀ x : SyncItem, x.id = it.id →
          (x ∈ queueRecords m3 ↔ x = { it with attempts := it.attempts + 1 })) ∧
        (5 ≤ it.attempts + 1 → ∀ x ∈ queueRecords m3, x.id ≠ it.id)) := by
  obtain ⟨hs, _⟩ := hwf
  have hpend1 : db.syncQueue.getAllByTimestamp = pre ++ it :: post := by
    simp only [getPendingSyncItems, hdb] at hpend
    exact Except.ok.inj hpend
  have hperm : (pre ++ it :: post).Perm db.syncQueue.records := by
    rw [← hpend1]; exact List.perm_insertionSort _ _
  have hnd : ((pre ++ it :: post).map (fun y => y.id)).Nodup :=
    (hperm.map _).nodup_iff.mpr (nodup_ids_of_pairwise _ hs)
  have hit : it ∈ db.syncQueue.records := hperm.subset (by simp)
  rw [List.map_append, List.map_cons, List.nodup_append] at hnd
  obtain ⟨_, hnd2, hdisj⟩ := hnd
  have hpre : it.id ∉ pre.map (fun y => y.id) := fun h => hdisj h (List.mem_cons_self _ _)
  have hpost : it.id ∉ post.map (fun y => y.id) := (List.nodup_cons.mp hnd2).1
  obtain ⟨m1, w1, db1, hrun1, hdb1, hpw1, hframe1, _, _⟩ :=
    processItems_open env pre m w db hdb hs
  obtain ⟨m3, w3, hrun3, hcalls, hok, herr⟩ := processItems_from_item env it post m1 w1 db1
    hdb1 hpw1 ((hframe1 it hpre).mpr hit) hpost
  refine ⟨m1, w1, m3, w3, hrun1, ?_, hcalls, hok, herr⟩
  rw [processItems_append_open env pre (it :: post) m w db hdb, hrun1]
  exact hrun3

/-! ### C2: every pending item is dealt with, whatever happened to the ones before it -/

/-- C2. In a drain run online on an open, well-formed queue, take any item `it` of the pending
list, `pre` being the items before it and `post` those after.  Whatever happened to the items of
`pre`, the loop reaches `it` (in state `m1`, `w1`), the backend calls of its processing are part
of the drain, and afterwards: if its processing succeeded, no record has its id; if it failed,
the queue holds exactly one record with its id, namely `it` with `attempts` one higher, when
that is below 5, and no record with its id otherwise. -/
theorem processSyncQueue_each_item (env : Env) (m : OfflineSyncManager) (w : World)
    (db : Database) (hdb : m.db = some db) (hwf : db.syncQueue.WF) (hon : m.isOnline = true)
    (pre post : List SyncItem) (it : SyncItem)
    (hpend : getPendingSyncItems m = .ok (pre ++ it :: post)) :
    ∃ m1 w1, processItems env pre m w = (.ok (), m1, w1) ∧
      (processSyncItem env w1 it).2.calls <+: (processSyncQueue env m w).2.2.calls ∧
      ((processSyncItem env w1 it).1 = .ok () →
        ∀ x ∈ queueRecords (processSyncQueue env m w).2.1, x.id ≠ it.id) ∧
      (∀ e, (processSyncItem env w1 it).1 = .error e →
        (it.attempts + 1 < 5 → ∀ x : SyncItem, x.id = it.id →
          (x ∈ queueRecords (processSyncQueue env m w).2.1 ↔
            x = { it with attempts := it.attempts + 1 })) ∧
        (5 ≤ it.attempts + 1 →
          ∀ x ∈ queueRecords (processSyncQueue env m w).2.1, x.id ≠ it.id)) := by
  obtain ⟨m1, w1, m3, w3, hrun1, hloop, hcalls, hok, herr⟩ :=
    processItems_pending_item env m w db hdb hwf pre post it hpend
  have hfinal : processSyncQueue env m w =
      (.ok (), m3, showSyncCompleteNotification env w3 (pre ++ it :: post).length) :=
    processSyncQueue_open env m m3 w w3 _ hon hpend hloop
  refine ⟨m1, w1, hrun1, ?_, ?_, ?_⟩
  · rw [hfinal]
    simpa only [showSyncCompleteNotification_calls] using hcalls
  · rw [hfinal]; exact hok
  · rw [hfinal]; exact herr

/-- C2 at a concrete drain: two pending items, the first of which fails; the second is
processed all the same and removed, its `updateLessonProgress` call being part of the drain. -/
theorem processSyncQueue_each_item_witness :
    mixedManager.db = some mixedDatabase ∧ mixedDatabase.syncQueue.WF ∧
    (processSyncItem exampleEnv World.initial failingItem).1 = .error "unavailable" ∧
    ∀ x ∈ queueRecords (processSyncQueue exampleEnv mixedManager World.initial).2.1,
      x.id ≠ succeedingItem.id := by
  refine ⟨rfl, by decide, rfl, ?_⟩
  obtain ⟨m1, w1, hrun, _, hok, _⟩ := processSyncQueue_each_item exampleEnv mixedManager
    World.initial mixedDatabase rfl (by decide) rfl [failingItem] [] succeedingItem rfl
  have hw1 : w1 = (processItems exampleEnv [failingItem] mixedManager World.initial).2.2 := by
    rw [hrun]
  subst hw1
  exact hok rfl

/-! ### C3: an offline drain does nothing -/

/-- C3. With `isOnline` false, `processSyncQueue` resolves and leaves the manager (hence every
queued item and its `attempts`) and the world (hence the backend calls issued and the
notifications shown) exactly as they were. -/
theorem processSyncQueue_offline_noop (env : Env) (m : OfflineSyncManager) (w : World)
    (hoff : m.isOnline = false) : processSyncQueue env m w = (.ok (), m, w) := by
  simp [processSyncQueue, hoff]

/-- C3 at a concrete state: the two-item queue of `mixedDatabase`, offline. -/
theorem processSyncQueue_offline_noop_witness :
    (processSyncQueue exampleEnv { mixedManager with isOnline := false } World.initial).2 =
      ({ mixedManager with isOnline := false }, World.initial) :=
  congrArg Prod.snd
    (processSyncQueue_offline_noop exampleEnv { mixedManager with isOnline := false }
      World.initial rfl)

/-! ### C6: process start -/

/-- C6. Whatever the durable queue holds and whatever `navigator.onLine` says, the
`checkPendingSync` of process start rejects with "Database not initialized" and starts no
drain: no backend call, no notification, and the durable database is untouched when the handle
opens.  On the two-item queue of `mixedDatabase`, online, nothing happens at start, although
the same `checkPendingSync` on the open handle does drain the queue. -/
theorem construct_starts_no_drain :
    (∀ (env : Env) (navigatorOnLine : Bool) (durable : Database) (w : World),
      construct env navigatorOnLine durable w =
        (.error notInitialized,
         { isOnline := navigatorOnLine, syncQueue := [], db := some durable }, w)) ∧
    (construct exampleEnv true mixedDatabase World.initial).2 = (mixedManager, World.initial) ∧
    (getPendingSyncItems mixedManager).toOption = some [failingItem, succeedingItem] ∧
    queueRecords (checkPendingSync exampleEnv mixedManager World.initial).2.1 =
      [{ failingItem with attempts := 1 }] := by
  refine ⟨fun env navigatorOnLine durable w => rfl, rfl, by decide, by decide⟩

/-! ### C7: a drain without storage -/

/-- C7 as stated fails: online with the handle unset, the result of `processSyncQueue` is not an
error. -/
theorem processSyncQueue_unavailable_not_error :
    (constructFields true).db = none ∧ (constructFields true).isOnline = true ∧
    ¬ ∃ e, (processSyncQueue exampleEnv (constructFields true) World.initial).1 = .error e := by
  refine ⟨rfl, rfl, ?_⟩
  rintro ⟨e, he⟩
  cases he

/-- C7, amended. With the handle unset, `getPendingSyncItems` rejects with "Database not
initialized"; `processSyncQueue` catches the rejection, so that it resolves normally, having
processed no item, issued no backend call and shown no notification. -/
theorem processSyncQueue_unavailable_swallowed (env : Env) (m : OfflineSyncManager) (w : World)
    (hdb : m.db = none) :
    getPendingSyncItems m = .error notInitialized ∧
    processSyncQueue env m w = (.ok (), m, w) := by
  have h : getPendingSyncItems m = .error notInitialized := by
    simp [getPendingSyncItems, hdb]
  refine ⟨h, ?_⟩
  unfold processSyncQueue
  rw [h]
  cases m.isOnline <;> rfl

/-- C7 amended, at a manager that has just been constructed online. -/
theorem processSyncQueue_unavailable_swallowed_witness :
    (constructFields true).db = none ∧
    (processSyncQueue exampleEnv (constructFields true) World.initial).2 =
      (constructFields true, World.initial) :=
  ⟨rfl, congrArg Prod.snd
    (processSyncQueue_unavailable_swallowed exampleEnv (constructFields true) World.initial
      rfl).2⟩

/-! ### C4: queued offline, synced on reconnect -/

/-- C4. On an empty open queue, offline, `queueProgressUpdate(progressData)` resolves, leaves
exactly one record (`progress_update`, the payload, `attempts` 0) and issues no backend call.
If the services are present, every backend call succeeds and `enrollment` is the first of the
user's enrollments with the payload's course, a following `handleOnline` leaves the queue empty
and has issued exactly three backend calls: the enrollment lookup, one `updateLessonProgress`
with that enrollment's id, the lesson and the payload's progress, and one
`updateLessonAnalytics`. -/
theorem queueProgressUpdate_then_handleOnline (env : Env) (m : OfflineSyncManager) (w : World)
    (db : Database) (progressData : ProgressData) (now : Nat)
    (enrollments : List Enrollment) (enrollment : Enrollment)
    (hdb : m.db = some db) (hempty : db.syncQueue.records = []) (hoff : m.isOnline = false)
    (hsvc : env.hasFirebaseServices = true) (hupd : env.hasUpdateLessonProgress = true)
    (hen : env.getUserEnrollments w.calls progressData.userId = .ok enrollments)
    (hfind : enrollments.find? (fun e => e.courseId == progressData.courseId) = some enrollment)
    (hresp : ∀ calls c, env.respond calls c = .ok ()) :
    ∃ m1 w1, queueProgressUpdate env m w progressData now = (.ok (), m1, w1) ∧
      queueRecords m1 =
        [{ id := db.syncQueue.nextKey, payload := .progress_update progressData,
           timestamp := now, attempts := 0 }] ∧
      w1.calls = w.calls ∧
      queueRecords (handleOnline env m1 w1).1 = [] ∧
      (handleOnline env m1 w1).2.calls = w.calls ++
        [.getUserEnrollments progressData.userId,
         .updateLessonProgress enrollment.id progressData.lessonId progressData.progress,
         .updateLessonAnalytics progressData.userId progressData.courseId
           progressData.lessonId progressData.timeSpent (progressData.progress == 100)] := by
  have hnote : ∀ (w0 : World) (n : Notification), (w0.notify env n).calls = w0.calls := by
    intro w0 n
    unfold World.notify
    split <;> rfl
  refine ⟨{ m with db := some { db with syncQueue := (db.syncQueue.add
      { payload := .progress_update progressData, timestamp := now, attempts := 0 }).2 } },
    showOfflineNotification env w, ?_, ?_, ?_, ?_, ?_⟩
  · simp only [queueProgressUpdate, addToSyncQueue, hdb, hoff, Bool.false_eq_true, if_false]
  · simp [queueRecords, hempty, SyncStore.add]
  · exact hnote _ _
  · simp [handleOnline, processSyncQueue, getPendingSyncItems, SyncStore.getAllByTimestamp,
      hempty, processItems, processSyncItem, syncProgressUpdate, hsvc, hupd,
      showOfflineNotification, showOnlineNotification, hnote, hen, hfind, hresp,
      removeFromSyncQueue, SyncStore.delete, queueRecords, SyncStore.add]
  · simp [handleOnline, processSyncQueue, getPendingSyncItems, SyncStore.getAllByTimestamp,
      hempty, processItems, SyncStore.add, processSyncItem, syncProgressUpdate, hsvc, hupd,
      showOfflineNotification, showOnlineNotification, hnote, hen, hfind, hresp,
      removeFromSyncQueue, SyncStore.delete, showSyncCompleteNotification_calls,
      World.call_calls]

/-- C4 on the scenario of the specification: `u1`, `c1`, `l1`, progress 100, 300 seconds. -/
theorem queueProgressUpdate_then_handleOnline_witness :
    queueRecords (queueProgressUpdate reliableEnv offlineEmptyManager World.initial
        scenarioProgress 5).2.1 =
      [{ id := 1, payload := .progress_update scenarioProgress, timestamp := 5,
         attempts := 0 }] ∧
    queueRecords (handleOnline reliableEnv
        (queueProgressUpdate reliableEnv offlineEmptyManager World.initial scenarioProgress 5).2.1
        (queueProgressUpdate reliableEnv offlineEmptyManager World.initial
          scenarioProgress 5).2.2).1 = [] ∧
    (handleOnline reliableEnv
        (queueProgressUpdate reliableEnv offlineEmptyManager World.initial scenarioProgress 5).2.1
        (queueProgressUpdate reliableEnv offlineEmptyManager World.initial
          scenarioProgress 5).2.2).2.calls =
      [.getUserEnrollments "u1", .updateLessonProgress "e1" "l1" 100,
       .updateLessonAnalytics "u1" "c1" "l1" 300 true] := by
  obtain ⟨m1, w1, hq, h1, _, h3, h4⟩ := queueProgressUpdate_then_handleOnline reliableEnv
    offlineEmptyManager World.initial { syncQueue := SyncStore.empty, courseProgress := [] }
    scenarioProgress 5 [{ id := "e0", courseId := "c0" }, { id := "e1", courseId := "c1" }]
    { id := "e1", courseId := "c1" } rfl rfl rfl rfl rfl rfl (by decide) (fun _ _ => rfl)
  rw [hq]
  exact ⟨h1, h3, h4⟩

/-! ### C8: items whose user has no enrollment for the course -/

/-- C8 as stated fails for `course_completion`: user `u2` has no enrollment, yet processing the
item writes to the backend (`updateCourseCompletionAnalytics`). -/
theorem course_completion_writes_without_enrollment :
    (∀ calls, exampleEnv.getUserEnrollments calls "u2" = .ok []) ∧
    orphanCompletion.payload = .course_completion
      { userId := "u2", courseId := "c1", certificateId := "cert-1" } ∧
    ∃ c ∈ (processSyncItem exampleEnv World.initial orphanCompletion).2.calls,
      c.isWrite = true :=
  ⟨fun _ => rfl, rfl, .updateCourseCompletionAnalytics "u2" "c1", by decide, rfl⟩

/-- C8, amended. Let `it` be a pending item of an online drain on an open, well-formed queue,
whose user has no enrollment for its course.  If `it` is a `progress_update`, processing it
raises no error and issues no backend write, and the drain deletes it.  If `it` is a
`course_completion` and the backend accepts `updateCourseCompletionAnalytics`, processing it
raises no error, that call is the only backend write it issues, and the drain deletes it. -/
theorem missing_enrollment_item_deleted (env : Env) (m : OfflineSyncManager) (w : World)
    (db : Database) (hdb : m.db = some db) (hwf : db.syncQueue.WF) (hon : m.isOnline = true)
    (pre post : List SyncItem) (it : SyncItem)
    (hpend : getPendingSyncItems m = .ok (pre ++ it :: post)) :
    (∀ d, it.payload = .progress_update d →
      (∀ calls, ∃ es, env.getUserEnrollments calls d.userId = .ok es ∧
        ∀ e ∈ es, e.courseId ≠ d.courseId) →
      (∀ w0, (processSyncItem env w0 it).1 = .ok () ∧
        ∃ ext, (processSyncItem env w0 it).2.calls = w0.calls ++ ext ∧
          ∀ c ∈ ext, c.isWrite = false) ∧
      ∀ x ∈ queueRecords (processSyncQueue env m w).2.1, x.id ≠ it.id) ∧
    (∀ d, it.payload = .course_completion d →
      (∀ calls, ∃ es, env.getUserEnrollments calls d.userId = .ok es ∧
        ∀ e ∈ es, e.courseId ≠ d.courseId) →
      (∀ calls, env.respond calls (.updateCourseCompletionAnalytics d.userId d.courseId)
        = .ok ()) →
      (∀ w0, (processSyncItem env w0 it).1 = .ok () ∧
        ∃ ext, (processSyncItem env w0 it).2.calls = w0.calls ++ ext ∧
          ∀ c ∈ ext, c.isWrite = true →
            c = .updateCourseCompletionAnalytics d.userId d.courseId) ∧
      ∀ x ∈ queueRecords (processSyncQueue env m w).2.1, x.id ≠ it.id) := by
  obtain ⟨m1, w1, m3, w3, _, hloop, _, hok3, _⟩ :=
    processItems_pending_item env m w db hdb hwf pre post it hpend
  have hfinal : processSyncQueue env m w =
      (.ok (), m3, showSyncCompleteNotification env w3 (pre ++ it :: post).length) :=
    processSyncQueue_open env m m3 w w3 _ hon hpend hloop
  have hok : (processSyncItem env w1 it).1 = .ok () →
      ∀ x ∈ queueRecords (processSyncQueue env m w).2.1, x.id ≠ it.id := by
    rw [hfinal]; exact hok3
  have hnone : ∀ (es : List Enrollment) (courseId : String),
      (∀ e ∈ es, e.courseId ≠ courseId) → es.find? (fun e => e.courseId == courseId) = none := by
    intro es courseId h
    rw [List.find?_eq_none]
    intro e he
    simpa using h e he
  constructor
  · intro d hd hno
    have hitem : ∀ w0, (processSyncItem env w0 it).1 = .ok () ∧
        ∃ ext, (processSyncItem env w0 it).2.calls = w0.calls ++ ext ∧
          ∀ c ∈ ext, c.isWrite = false := by
      intro w0
      obtain ⟨es, hes, hne⟩ := hno w0.calls
      simp only [processSyncItem, hd, syncProgressUpdate, hes, hnone es _ hne]
      split
      · exact ⟨rfl, [.getUserEnrollments d.userId], rfl, by simp [BackendCall.isWrite]⟩
      · exact ⟨rfl, [], by simp, by simp⟩
    exact ⟨hitem, hok (hitem w1).1⟩
  · intro d hd hno hacc
    have hitem : ∀ w0, (processSyncItem env w0 it).1 = .ok () ∧
        ∃ ext, (processSyncItem env w0 it).2.calls = w0.calls ++ ext ∧
          ∀ c ∈ ext, c.isWrite = true →
            c = .updateCourseCompletionAnalytics d.userId d.courseId := by
      intro w0
      obtain ⟨es, hes, hne⟩ := hno (w0.call (.updateCourseCompletionAnalytics d.userId
        d.courseId)).calls
      simp only [processSyncItem, hd, syncCourseCompletion, hacc, hes, hnone es _ hne]
      split
      · refine ⟨rfl, [.updateCourseCompletionAnalytics d.userId d.courseId,
          .getUserEnrollments d.userId], by simp [World.call_calls], ?_⟩
        intro c hc hw
        simp only [List.mem_cons, List.mem_singleton, List.not_mem_nil, or_false] at hc
        rcases hc with rfl | rfl
        · rfl
        · cases hw
      · exact ⟨rfl, [], by simp, by simp⟩
    exact ⟨hitem, hok (hitem w1).1⟩

/-- C8 amended, on a drain of the two items of user `u2`: the course completion is deleted. -/
theorem missing_enrollment_item_deleted_witness :
    orphanManager.isOnline = true ∧
    (getPendingSyncItems orphanManager).toOption = some [orphanProgress, orphanCompletion] ∧
    ∀ x ∈ queueRecords (processSyncQueue exampleEnv orphanManager World.initial).2.1,
      x.id ≠ orphanCompletion.id :=
  ⟨rfl, by decide,
    ((missing_enrollment_item_deleted exampleEnv orphanManager World.initial
      { syncQueue := { records := [orphanProgress, orphanCompletion], nextKey := 3 },
        courseProgress := [] }
      rfl (by decide) rfl [orphanProgress] [] orphanCompletion rfl).2
      { userId := "u2", courseId := "c1", certificateId := "cert-1" } rfl
      (fun _ => ⟨[], rfl, by simp⟩) (fun _ => rfl)).2⟩

/-! ### C5: the pending list holds every stored item, by ascending timestamp -/

theorem SyncStore.WF_add (s : SyncStore) (hwf : s.WF) (item : NewSyncItem) :
    (s.add item).2.WF := by
  obtain ⟨hs, hlt⟩ := hwf
  constructor
  · exact pairwise_append_last s.records _ hs hlt
  · intro x hx
    simp only [SyncStore.add, List.mem_append, List.mem_singleton] at hx
    rcases hx with hx | rfl
    · have := hlt x hx
      simp only [SyncStore.add]; omega
    · simp [SyncStore.add]

/-- A run of enqueues on an open, well-formed queue succeeds, keeps it well formed, and stores
the items after the old records, in the order they were enqueued. -/
theorem enqueueAll_records :
    ∀ (items : List NewSyncItem) (m : OfflineSyncManager) (db : Database),
      m.db = some db → db.syncQueue.WF →
      ∃ m1 db1, enqueueAll items m = .ok m1 ∧ m1.db = some db1 ∧ db1.syncQueue.WF ∧
        db1.syncQueue.records.map SyncItem.toNew =
          db.syncQueue.records.map SyncItem.toNew ++ items := by
  intro items
  induction items with
  | nil =>
    intro m db hdb hwf
    exact ⟨m, db, rfl, hdb, hwf, by simp⟩
  | cons item rest ih =>
    intro m db hdb hwf
    obtain ⟨m1, db1, hrun, hdb1, hwf1, hrec⟩ := ih
      { m with db := some { db with syncQueue := (db.syncQueue.add item).2 } }
      { db with syncQueue := (db.syncQueue.add item).2 } rfl (SyncStore.WF_add _ hwf item)
    refine ⟨m1, db1, ?_, hdb1, hwf1, ?_⟩
    · simp only [enqueueAll, addToSyncQueue, hdb]
      exact hrun
    · rw [hrec]
      simp [SyncStore.add, SyncItem.toNew]

theorem SyncItem.indexLe_total (a b : SyncItem) : a.indexLe b ∨ b.indexLe a := by
  unfold SyncItem.indexLe; omega

theorem SyncItem.indexLe_trans (a b c : SyncItem) (h1 : a.indexLe b) (h2 : b.indexLe c) :
    a.indexLe c := by
  unfold SyncItem.indexLe at *; omega

/-- The index `timestamp` lists the records by ascending timestamp. -/
theorem SyncStore.getAllByTimestamp_sorted (s : SyncStore) :
    s.getAllByTimestamp.Pairwise (fun (a b : SyncItem) => a.timestamp ≤ b.timestamp) := by
  have h := @List.sorted_insertionSort SyncItem SyncItem.indexLe _
    ⟨SyncItem.indexLe_total⟩ ⟨SyncItem.indexLe_trans⟩ s.records
  refine List.Pairwise.imp ?_ h
  intro a b hab
  unfold SyncItem.indexLe at hab; omega

/-- C5. After any run of `addToSyncQueue` calls on an open, well-formed queue (each of which
resolves, the queue then holding the old records followed by the enqueued items),
`getPendingSyncItems` resolves with a list that holds exactly the stored records, none of them
twice, in non-decreasing order of `timestamp`. -/
theorem getPendingSyncItems_all_by_timestamp (m : OfflineSyncManager) (db : Database)
    (hdb : m.db = some db) (hwf : db.syncQueue.WF) (items : List NewSyncItem) :
    ∃ m1 pending, enqueueAll items m = .ok m1 ∧ getPendingSyncItems m1 = .ok pending ∧
      (queueRecords m1).map SyncItem.toNew = db.syncQueue.records.map SyncItem.toNew ++ items ∧
      pending.Perm (queueRecords m1) ∧ pending.Nodup ∧
      pending.Pairwise (fun (a b : SyncItem) => a.timestamp ≤ b.timestamp) := by
  obtain ⟨m1, db1, hrun, hdb1, hwf1, hrec⟩ := enqueueAll_records items m db hdb hwf
  have hperm : db1.syncQueue.getAllByTimestamp.Perm db1.syncQueue.records :=
    List.perm_insertionSort _ _
  have hnd : db1.syncQueue.records.Nodup :=
    hwf1.1.imp (fun {a b} (h : a.id < b.id) (e : a = b) => by rw [e] at h; omega)
  refine ⟨m1, db1.syncQueue.getAllByTimestamp, hrun, ?_, ?_, ?_, ?_, ?_⟩
  · simp only [getPendingSyncItems, hdb1]
  · simpa only [queueRecords, hdb1] using hrec
  · simpa only [queueRecords, hdb1] using hperm
  · exact hperm.nodup_iff.mpr hnd
  · exact SyncStore.getAllByTimestamp_sorted _

/-- C5 at a concrete run: two items enqueued on the queue of `exampleDatabase`, the second with
the earliest timestamp of all; it comes first in the pending list. -/
theorem getPendingSyncItems_all_by_timestamp_witness :
    exampleDatabase.syncQueue.WF ∧
    ((enqueueAll [{ payload := .unknown "c", timestamp := 9, attempts := 0 },
                  { payload := .unknown "d", timestamp := 1, attempts := 0 }]
        exampleManager).toOption.bind (fun m1 => (getPendingSyncItems m1).toOption)).map
          (fun pending => pending.map (fun x => (x.id, x.timestamp)))
      = some [(4, 1), (2, 3), (1, 7), (3, 9)] ∧
    ∃ m1 pending,
      enqueueAll [{ payload := .unknown "c", timestamp := 9, attempts := 0 },
                  { payload := .unknown "d", timestamp := 1, attempts := 0 }]
        exampleManager = .ok m1 ∧
      getPendingSyncItems m1 = .ok pending ∧
      pending.Pairwise (fun (a b : SyncItem) => a.timestamp ≤ b.timestamp) := by
  refine ⟨by decide, by decide, ?_⟩
  obtain ⟨m1, pending, h1, h2, _, _, _, h6⟩ := getPendingSyncItems_all_by_timestamp
    exampleManager exampleDatabase rfl (by decide)
    [{ payload := .unknown "c", timestamp := 9, attempts := 0 },
     { payload := .unknown "d", timestamp := 1, attempts := 0 }]
  exact ⟨m1, pending, h1, h2, h6⟩

/-! ### C10: removing twice is removing once -/

/-- C10. On an open store `removeFromSyncQueue(id)` resolves for every id, present or not; a
second `removeFromSyncQueue(id)` resolves too and changes nothing; and the queue after them is
the original one without the records of that id, every other record being as it was. -/
theorem removeFromSyncQueue_idempotent (m : OfflineSyncManager) (db : Database)
    (hdb : m.db = some db) (itemId : Nat) :
    ∃ m1, removeFromSyncQueue m itemId = .ok m1 ∧ removeFromSyncQueue m1 itemId = .ok m1 ∧
      queueRecords m1 = db.syncQueue.records.filter (fun x => x.id != itemId) ∧
      (∀ x ∈ queueRecords m1, x.id ≠ itemId) ∧
      (∀ x : SyncItem, x.id ≠ itemId → (x ∈ queueRecords m1 ↔ x ∈ db.syncQueue.records)) := by
  refine ⟨{ m with db := some { db with syncQueue := db.syncQueue.delete itemId } }, ?_, ?_,
    rfl, ?_, ?_⟩
  · simp only [removeFromSyncQueue, hdb]
  · simp [removeFromSyncQueue, SyncStore.delete, List.filter_filter]
  · intro x hx
    simp only [queueRecords, SyncStore.delete] at hx
    simpa using (List.mem_filter.mp hx).2
  · intro x hx
    simp only [queueRecords, SyncStore.delete]
    exact mem_filter_id_of_ne _ _ _ hx

/-- C10 on the queue of `exampleDatabase`: removing record 1 twice, and removing the absent
key 9. -/
theorem removeFromSyncQueue_idempotent_witness :
    ((removeFromSyncQueue exampleManager 1).toOption.bind
        (fun m1 => (removeFromSyncQueue m1 1).toOption)).map queueRecords
      = some [{ id := 2, payload := .unknown "b", timestamp := 3, attempts := 1 }] ∧
    (∃ m1, removeFromSyncQueue exampleManager 9 = .ok m1 ∧
      queueRecords m1 = exampleDatabase.syncQueue.records) := by
  refine ⟨by decide, ?_⟩
  obtain ⟨m1, h1, _, h3, _, _⟩ := removeFromSyncQueue_idempotent exampleManager exampleDatabase
    rfl 9
  exact ⟨m1, h1, by rw [h3]; decide⟩

/-! ### C9: the local progress cache -/

theorem ProgressRecord.key_eq_iff (a b : ProgressRecord) :
    a.key = b.key ↔ a.userId = b.userId ∧ a.courseId = b.courseId ∧ a.lessonId = b.lessonId := by
  simp only [ProgressRecord.key, List.cons.injEq, and_true, String.toList]
  constructor
  · rintro ⟨h1, h2, h3⟩
    exact ⟨String.ext h1, String.ext h2, String.ext h3⟩
  · rintro ⟨h1, h2, h3⟩
    rw [h1, h2, h3]
    exact ⟨rfl, rfl, rfl⟩

theorem mem_putProgress (r y : ProgressRecord) (l : List ProgressRecord)
    (h : y ∈ putProgress r l) : y = r ∨ y ∈ l := by
  induction l with
  | nil => simpa [putProgress] using h
  | cons x xs ih =>
    unfold putProgress at h
    split at h
    · simpa using h
    · split at h
      · rcases List.mem_cons.mp h with h | h
        · exact Or.inl h
        · exact Or.inr (List.mem_cons_of_mem _ h)
      · rcases List.mem_cons.mp h with h | h
        · exact Or.inr (h ▸ List.mem_cons_self _ _)
        · rcases ih h with h | h
          · exact Or.inl h
          · exact Or.inr (List.mem_cons_of_mem _ h)

/-- The `put` of the cache keeps the keys strictly ascending. -/
theorem putProgress_wf (r : ProgressRecord) (l : List ProgressRecord) (hwf : ProgressWF l) :
    ProgressWF (putProgress r l) := by
  unfold ProgressWF at *
  induction l with
  | nil => simp [putProgress]
  | cons x xs ih =>
    rw [List.pairwise_cons] at hwf
    obtain ⟨hx, hxs⟩ := hwf
    unfold putProgress
    split
    · rename_i hlt
      refine List.pairwise_cons.mpr ⟨?_, List.pairwise_cons.mpr ⟨hx, hxs⟩⟩
      intro y hy
      rcases List.mem_cons.mp hy with rfl | hy
      · exact hlt
      · exact lt_trans hlt (hx y hy)
    · split
      · rename_i _ heq
        refine List.pairwise_cons.mpr ⟨?_, hxs⟩
        intro y hy
        rw [heq]; exact hx y hy
      · rename_i hnlt hne
        refine List.pairwise_cons.mpr ⟨?_, ih hxs⟩
        intro y hy
        rcases mem_putProgress r y xs hy with rfl | hy
        · rcases lt_trichotomy y.key x.key with h | h | h
          · exact absurd h hnlt
          · exact absurd h hne
          · exact h
        · exact hx y hy

/-- After a `put` the cache holds the record put, and no other record with its key. -/
theorem putProgress_filter_key (r : ProgressRecord) (l : List ProgressRecord)
    (hwf : ProgressWF l) :
    (putProgress r l).filter (fun x => x.key = r.key) = [r] := by
  unfold ProgressWF at hwf
  have hgt : ∀ (t : List ProgressRecord), (∀ y ∈ t, r.key < y.key) →
      t.filter (fun x => x.key = r.key) = [] := by
    intro t ht
    rw [List.filter_eq_nil_iff]
    intro y hy
    have := ht y hy
    simp only [decide_eq_true_eq]
    exact fun h => absurd (h ▸ this) (lt_irrefl _)
  induction l with
  | nil => simp [putProgress]
  | cons x xs ih =>
    rw [List.pairwise_cons] at hwf
    obtain ⟨hx, hxs⟩ := hwf
    unfold putProgress
    split
    · rename_i hlt
      have := hgt (x :: xs) (by
        intro y hy
        rcases List.mem_cons.mp hy with rfl | hy
        · exact hlt
        · exact lt_trans hlt (hx y hy))
      simp [List.filter_cons, this]
    · split
      · rename_i _ heq
        have := hgt xs (by intro y hy; rw [heq]; exact hx y hy)
        simp [List.filter_cons, this]
      · rename_i _ hne
        have hne1 : ¬ x.key = r.key := fun h => hne h.symm
        simp [List.filter_cons, hne1, ih hxs]

/-- A `put` leaves the records of every other key as they were, in their order. -/
theorem putProgress_filter_other (r : ProgressRecord) (l : List ProgressRecord) :
    (putProgress r l).filter (fun x => ¬ x.key = r.key) =
      l.filter (fun x => ¬ x.key = r.key) := by
  induction l with
  | nil => simp [putProgress]
  | cons x xs ih =>
    unfold putProgress
    split
    · simp [List.filter_cons]
    · split
      · rename_i _ heq
        simp [List.filter_cons, heq]
      · rename_i _ hne
        have hne1 : ¬ x.key = r.key := fun h => hne h.symm
        simp only [List.filter_cons, hne1, not_false_eq_true, decide_True, if_true, ih]

/-- C9. On an open cache with keys in order, two `storeLocalProgress` calls with the same
`(userId, courseId, lessonId)` both resolve; afterwards the cache holds exactly one record with
that key, carrying the second call's `progress` and `timeSpent`; the records of every other key
are those of before; and `getLocalProgress(u, c)` resolves, for any `u` and `c`, with exactly
the stored records whose `userId` is `u` and whose `courseId` is `c`. -/
theorem storeLocalProgress_twice (m : OfflineSyncManager) (db : Database)
    (hdb : m.db = some db) (hwf : ProgressWF db.courseProgress)
    (userId courseId lessonId : String) (p1 t1 now1 p2 t2 now2 : Nat) :
    ∃ m1 m2, storeLocalProgress m userId courseId lessonId p1 t1 now1 = .ok m1 ∧
      storeLocalProgress m1 userId courseId lessonId p2 t2 now2 = .ok m2 ∧
      (progressRecords m2).filter
          (fun r => r.userId = userId ∧ r.courseId = courseId ∧ r.lessonId = lessonId) =
        [{ userId := userId, courseId := courseId, lessonId := lessonId, progress := p2,
           timeSpent := t2, lastUpdated := now2 }] ∧
      (progressRecords m2).filter
          (fun r => ¬ (r.userId = userId ∧ r.courseId = courseId ∧ r.lessonId = lessonId)) =
        db.courseProgress.filter
          (fun r => ¬ (r.userId = userId ∧ r.courseId = courseId ∧ r.lessonId = lessonId)) ∧
      ∀ u c, getLocalProgress m2 u c =
        .ok ((progressRecords m2).filter (fun r => r.userId = u ∧ r.courseId = c)) := by
  have hkey : ∀ (p t n : Nat) (x : ProgressRecord),
      (x.key = (ProgressRecord.mk userId courseId lessonId p t n).key) =
      (x.userId = userId ∧ x.courseId = courseId ∧ x.lessonId = lessonId) := by
    intro p t n x
    exact propext (ProgressRecord.key_eq_iff _ _)
  refine ⟨_, _, by simp only [storeLocalProgress, hdb]; rfl,
    by simp only [storeLocalProgress]; rfl, ?_, ?_, ?_⟩
  · have h := putProgress_filter_key (ProgressRecord.mk userId courseId lessonId p2 t2 now2)
      (putProgress (ProgressRecord.mk userId courseId lessonId p1 t1 now1) db.courseProgress)
      (putProgress_wf _ _ hwf)
    simp only [hkey] at h
    exact h
  · have h2 := putProgress_filter_other (ProgressRecord.mk userId courseId lessonId p2 t2 now2)
      (putProgress (ProgressRecord.mk userId courseId lessonId p1 t1 now1) db.courseProgress)
    have h1 := putProgress_filter_other (ProgressRecord.mk userId courseId lessonId p1 t1 now1)
      db.courseProgress
    simp only [hkey] at h1 h2
    exact h2.trans h1
  · intro u c
    simp only [getLocalProgress, progressRecords, List.filter_filter]
    congr 2
    funext r
    by_cases h1 : r.userId = u <;> by_cases h2 : r.courseId = c <;> simp [h1, h2]

/-- C9 on a cache of three records: lesson `l3` of `u1` in `c1` is overwritten by the second of
two writes, and `getLocalProgress("u1", "c1")` then returns the two records of `u1` in `c1`. -/
theorem storeLocalProgress_twice_witness :
    ((storeLocalProgress cacheManager "u1" "c1" "l3" 60 11 4).toOption.bind
        (fun m1 => (storeLocalProgress m1 "u1" "c1" "l3" 100 12 5).toOption)).bind
        (fun m2 => (getLocalProgress m2 "u1" "c1").toOption)
      = some [{ userId := "u1", courseId := "c1", lessonId := "l1", progress := 10,
                timeSpent := 5, lastUpdated := 1 },
              { userId := "u1", courseId := "c1", lessonId := "l3", progress := 100,
                timeSpent := 12, lastUpdated := 5 }] ∧
    ∃ m1 m2, storeLocalProgress cacheManager "u1" "c1" "l3" 60 11 4 = .ok m1 ∧
      storeLocalProgress m1 "u1" "c1" "l3" 100 12 5 = .ok m2 ∧
      (progressRecords m2).filter
          (fun r => r.userId = "u1" ∧ r.courseId = "c1" ∧ r.lessonId = "l3") =
        [{ userId := "u1", courseId := "c1", lessonId := "l3", progress := 100,
           timeSpent := 12, lastUpdated := 5 }] := by
  refine ⟨by decide, ?_⟩
  obtain ⟨m1, m2, h1, h2, h3, _, _⟩ := storeLocalProgress_twice cacheManager
    { syncQueue := SyncStore.empty,
      courseProgress :=
        [{ userId := "u1", courseId := "c1", lessonId := "l1", progress := 10, timeSpent := 5,
           lastUpdated := 1 },
         { userId := "u1", courseId := "c1", lessonId := "l3", progress := 30, timeSpent := 7,
           lastUpdated := 2 },
         { userId := "u2", courseId := "c1", lessonId := "l1", progress := 90, timeSpent := 9,
           lastUpdated := 3 }] }
    rfl (by decide) "u1" "c1" "l3" 60 11 4 100 12 5
  exact ⟨m1, m2, h1, h2, h3⟩

/-! ### C16: the sync status never reports pending items -/

theorem processItems_syncQueue (env : Env) :
    ∀ (l : List SyncItem) (m : OfflineSyncManager) (w : World),
      (processItems env l m w).2.1.syncQueue = m.syncQueue := by
  intro l
  induction l with
  | nil => intro m w; rfl
  | cons item rest ih =>
    intro m w
    cases hdb : m.db with
    | none =>
      simp only [processItems, removeFromSyncQueue, updateSyncAttempt, hdb]
      cases (processSyncItem env w item).1 <;> rfl
    | some db =>
      rw [processItems_cons_open env item rest m w db hdb, ih]

theorem processSyncQueue_syncQueue (env : Env) (m : OfflineSyncManager) (w : World) :
    (processSyncQueue env m w).2.1.syncQueue = m.syncQueue := by
  unfold processSyncQueue
  split
  · rfl
  · split
    · rfl
    · rename_i pendingItems _
      have h := processItems_syncQueue env pendingItems m w
      split <;> rename_i heq <;> rw [heq] at h <;> exact h

/-- No action writes the field `syncQueue`. -/
theorem step_syncQueue (env : Env) (a : Action) (st : OfflineSyncManager × World) :
    (step env a st).1.syncQueue = st.1.syncQueue := by
  cases a with
  | queueProgressUpdate progressData now =>
    simp only [step, queueProgressUpdate, addToSyncQueue]
    cases hdb : st.1.db with
    | none => rfl
    | some db =>
      simp only []
      split
      · rw [processSyncQueue_syncQueue]
      · rfl
  | addToSyncQueue item =>
    simp only [step, addToSyncQueue]
    cases hdb : st.1.db <;> rfl
  | processSyncQueue => exact processSyncQueue_syncQueue env st.1 st.2
  | handleOnline =>
    simp only [step, handleOnline]
    rw [processSyncQueue_syncQueue]
  | handleOffline => rfl

theorem run_syncQueue (env : Env) :
    ∀ (actions : List Action) (st : OfflineSyncManager × World),
      (run env actions st).1.syncQueue = st.1.syncQueue := by
  intro actions
  induction actions with
  | nil => intro st; rfl
  | cons a rest ih =>
    intro st
    rw [run, ih, step_syncQueue]

/-- C16. After construction and any sequence of `queueProgressUpdate`, `addToSyncQueue`,
`processSyncQueue`, `handleOnline` and `handleOffline`, `getSyncStatus()` returns the manager's
`isOnline` flag and `hasPendingSync` false.  So it does on a manager that was constructed
offline on an empty database and then given one progress update: the durable queue holds the
item, and `hasPendingSync` is false. -/
theorem getSyncStatus_never_pending :
    (∀ (env : Env) (navigatorOnLine : Bool) (durable : Database) (w : World)
        (actions : List Action),
      getSyncStatus (run env actions (construct env navigatorOnLine durable w).2).1 =
        { isOnline := (run env actions (construct env navigatorOnLine durable w).2).1.isOnline,
          hasPendingSync := false }) ∧
    (queueRecords (run reliableEnv [.queueProgressUpdate scenarioProgress 5]
        (construct reliableEnv false { syncQueue := SyncStore.empty, courseProgress := [] }
          World.initial).2).1).length = 1 ∧
    (getSyncStatus (run reliableEnv [.queueProgressUpdate scenarioProgress 5]
        (construct reliableEnv false { syncQueue := SyncStore.empty, courseProgress := [] }
          World.initial).2).1).hasPendingSync = false := by
  refine ⟨?_, by decide, by decide⟩
  intro env navigatorOnLine durable w actions
  have h := run_syncQueue env actions (construct env navigatorOnLine durable w).2
  have h0 : (construct env navigatorOnLine durable w).2.1.syncQueue = [] := rfl
  rw [h0] at h
  simp [getSyncStatus, h]

end OfflineSync

namespace Challenges

/-! ### Entries and celebrations -/

theorem setEntry_self (up : ProgressMap) (um : UserMap) (u id : String) (e : ChallengeProgress) :
    setEntry up um u id e u = some (fun c => if c = id then some e else um c) := by
  simp [setEntry]

theorem setEntry_other (up : ProgressMap) (um : UserMap) (u id v : String)
    (e : ChallengeProgress) (h : v ≠ u) : setEntry up um u id e v = up v := by
  simp [setEntry, h]

theorem showChallengeCompletion_ids (t : LearningChallenges) (page : Page) (id : String)
    (h : ∃ c ∈ t.currentChallenges, c.id = id) :
    (showChallengeCompletion t page id).celebrations.map (fun x => x.challengeId) =
      page.celebrations.map (fun x => x.challengeId) ++ [id] := by
  unfold showChallengeCompletion
  cases hf : t.currentChallenges.find? (fun c => c.id == id) with
  | none =>
    obtain ⟨c, hc, hid⟩ := h
    have := List.find?_eq_none.mp hf c hc
    simp [hid] at this
  | some c => simp

/-- A completion on an existing entry: the entry is marked, the celebration is that of
`showChallengeCompletion`. -/
theorem completeChallenge_ok (s : Session) (t : LearningChallenges) (page : Page) (id : String)
    (now : Nat) (um : UserMap) (e : ChallengeProgress) (hu : getCurrentUserId s ≠ "")
    (hum : t.userProgress (getCurrentUserId s) = some um) (he : um id = some e) :
    ∃ page1, completeChallenge s t page id now =
        .ok ({ t with userProgress :=
                setEntry t.userProgress um (getCurrentUserId s) id (completeEntry e now) },
             page1) ∧
      page1.celebrations = (showChallengeCompletion t page id).celebrations := by
  unfold completeChallenge
  simp only [hu, if_false, hum, he]
  refine ⟨_, rfl, ?_⟩
  unfold trackChallengeCompletion saveUserProgress
  simp only [hu, if_false]
  split <;> rfl

/-! ### The loop of `checkChallengeCompletion` -/

theorem qualifies_eq_of_eq (um um1 : UserMap) (id : String) (goal : Int)
    (h : um1 id = um id) : qualifies um1 id goal = qualifies um id goal := by
  unfold qualifies; rw [h]

/-- The loop of `checkChallengeCompletion` over challenges with distinct ids, all on the list:
it raises nothing; it leaves the list and the other users alone; each visited entry becomes
what `afterCheck` says and no other entry changes; one celebration is shown for each entry
that qualified, in order; and when none qualifies nothing changes at all. -/
theorem checkLoop_spec (s : Session) (now : Nat) (hu : getCurrentUserId s ≠ "") :
    ∀ (cs : List Challenge) (t : LearningChallenges) (page : Page) (um : UserMap),
      t.userProgress (getCurrentUserId s) = some um →
      (cs.map (fun c => c.id)).Nodup →
      (∀ c ∈ cs, ∃ c1 ∈ t.currentChallenges, c1.id = c.id) →
      ∃ t1 page1 um1, checkLoop s now cs t page = .ok (t1, page1) ∧
        t1.currentChallenges = t.currentChallenges ∧
        t1.userProgress (getCurrentUserId s) = some um1 ∧
        (∀ v, v ≠ getCurrentUserId s → t1.userProgress v = t.userProgress v) ∧
        (∀ c ∈ cs, um1 c.id = afterCheck c.goal now (um c.id)) ∧
        (∀ id, id ∉ cs.map (fun c => c.id) → um1 id = um id) ∧
        page1.celebrations.map (fun x => x.challengeId) =
          page.celebrations.map (fun x => x.challengeId) ++
            (cs.filter (fun c => qualifies um c.id c.goal)).map (fun c => c.id) ∧
        ((∀ c ∈ cs, qualifies um c.id c.goal = false) → t1 = t ∧ page1 = page) := by
  intro cs
  induction cs with
  | nil =>
    intro t page um hum _ _
    exact ⟨t, page, um, rfl, rfl, hum, fun _ _ => rfl, fun _ h => absurd h (List.not_mem_nil _),
      fun _ _ => rfl, by simp, fun _ => ⟨rfl, rfl⟩⟩
  | cons c rest ih =>
    intro t page um hum hnd hin
    rw [List.map_cons, List.nodup_cons] at hnd
    obtain ⟨hc, hnd1⟩ := hnd
    have hin1 : ∀ x ∈ rest, ∃ c1 ∈ t.currentChallenges, c1.id = x.id :=
      fun x hx => hin x (List.mem_cons_of_mem _ hx)
    have hne : ∀ x ∈ rest, x.id ≠ c.id := by
      intro x hx h
      exact hc (List.mem_map.mpr ⟨x, hx, h⟩)
    by_cases hq : qualifies um c.id c.goal = true
    · -- the head qualifies: it is completed, and the loop goes on from the new state
      have hq0 := hq
      unfold qualifies at hq
      cases he : um c.id with
      | none => rw [he] at hq; cases hq
      | some e =>
        rw [he] at hq
        simp only [] at hq
        obtain ⟨page0, hcomp, hcel⟩ :=
          completeChallenge_ok s t page c.id now um e hu hum he
        obtain ⟨t1, page1, um1, hrun, hlist, hum1, hoth, hvis, hrest, hcels, _⟩ :=
          ih { t with userProgress :=
                setEntry t.userProgress um (getCurrentUserId s) c.id (completeEntry e now) }
            page0 (fun x => if x = c.id then some (completeEntry e now) else um x)
            (setEntry_self _ _ _ _ _) hnd1 hin1
        refine ⟨t1, page1, um1, ?_, hlist, hum1, ?_, ?_, ?_, ?_, ?_⟩
        · simp only [checkLoop, hum, he, hq, if_true, hcomp]
          exact hrun
        · intro v hv
          rw [hoth v hv]
          exact setEntry_other _ _ _ _ _ _ hv
        · intro x hx
          rcases List.mem_cons.mp hx with rfl | hx
          · rw [hrest _ hc, he]
            simp [afterCheck, hq]
          · rw [hvis x hx]
            simp [hne x hx]
        · intro id hid
          rw [List.map_cons, List.mem_cons, not_or] at hid
          rw [hrest id hid.2]
          simp [hid.1]
        · rw [hcels, hcel, showChallengeCompletion_ids t page c.id (hin c (List.mem_cons_self _ _))]
          have hf : rest.filter (fun x => qualifies
              (fun y => if y = c.id then some (completeEntry e now) else um y) x.id x.goal) =
              rest.filter (fun x => qualifies um x.id x.goal) := by
            apply List.filter_congr
            intro x hx
            apply qualifies_eq_of_eq
            simp [hne x hx]
          rw [hf, List.filter_cons, if_pos hq0]
          simp
        · intro hall
          have := hall c (List.mem_cons_self _ _)
          rw [hq0] at this
          cases this
    · -- the head does not qualify: nothing happens to it
      have hq0 : qualifies um c.id c.goal = false := by
        cases h : qualifies um c.id c.goal
        · rfl
        · exact absurd h hq
      obtain ⟨t1, page1, um1, hrun, hlist, hum1, hoth, hvis, hrest, hcels, hnoop⟩ :=
        ih t page um hum hnd1 hin1
      have hstep : checkLoop s now (c :: rest) t page = checkLoop s now rest t page := by
        simp only [checkLoop, hum]
        unfold qualifies at hq0
        cases he : um c.id with
        | none => rfl
        | some e =>
          rw [he] at hq0
          simp only [] at hq0
          simp only [hq0, Bool.false_eq_true, if_false]
      refine ⟨t1, page1, um1, by rw [hstep]; exact hrun, hlist, hum1, hoth, ?_, ?_, ?_, ?_⟩
      · intro x hx
        rcases List.mem_cons.mp hx with rfl | hx
        · rw [hrest _ hc]
          unfold qualifies at hq0
          cases he : um x.id with
          | none => rfl
          | some e =>
            rw [he] at hq0
            simp only [] at hq0
            simp [afterCheck, hq0]
        · exact hvis x hx
      · intro id hid
        rw [List.map_cons, List.mem_cons, not_or] at hid
        exact hrest id hid.2
      · rw [hcels, List.filter_cons, hq0]
        simp
      · intro hall
        exact hnoop (fun x hx => hall x (List.mem_cons_of_mem _ hx))

theorem qualifies_afterCheck (um um1 : UserMap) (id : String) (goal : Int) (now : Nat)
    (h : um1 id = afterCheck goal now (um id)) : qualifies um1 id goal = false := by
  unfold qualifies
  rw [h]
  cases he : um id with
  | none => rfl
  | some e =>
    unfold afterCheck
    cases hq : (!e.completed && decide (e.progress ≥ goal))
    · simp only [Bool.false_eq_true, if_false, hq]
    · simp only [hq, if_true]
      simp [completeEntry]

/-! ### C12: completion happens exactly once -/

/-- C12. Let the current user (with a non-empty id) have a progress map `um`, and let the
listed challenges have distinct ids.  `checkChallengeCompletion` raises nothing and leaves the
list and the maps of other users alone.  Every listed challenge whose entry exists, is not
completed and has `progress >= goal` gets its entry marked completed at `now`; every entry of
which that is not true is unchanged; and the celebrations shown are one for each of those
challenges, in list order.  A second call, at any instant, changes nothing and shows nothing. -/
theorem checkChallengeCompletion_completes_once (s : Session) (t : LearningChallenges)
    (page : Page) (now now2 : Nat) (um : UserMap) (hu : getCurrentUserId s ≠ "")
    (hum : t.userProgress (getCurrentUserId s) = some um)
    (hnd : (t.currentChallenges.map (fun c => c.id)).Nodup) :
    ∃ t1 page1 um1, checkChallengeCompletion s t page now = .ok (t1, page1) ∧
      t1.currentChallenges = t.currentChallenges ∧
      t1.userProgress (getCurrentUserId s) = some um1 ∧
      (∀ v, v ≠ getCurrentUserId s → t1.userProgress v = t.userProgress v) ∧
      (∀ c ∈ t.currentChallenges, ∀ e, um c.id = some e → e.completed = false →
        e.progress ≥ c.goal →
        um1 c.id = some { e with completed := true, completedAt := some now }) ∧
      (∀ id, (∀ c ∈ t.currentChallenges, c.id = id → ∀ e, um id = some e →
          e.completed = true ∨ e.progress < c.goal) → um1 id = um id) ∧
      page1.celebrations.map (fun x => x.challengeId) =
        page.celebrations.map (fun x => x.challengeId) ++
          (t.currentChallenges.filter (fun c => qualifies um c.id c.goal)).map
            (fun c => c.id) ∧
      checkChallengeCompletion s t1 page1 now2 = .ok (t1, page1) := by
  obtain ⟨t1, page1, um1, hrun, hlist, hum1, hoth, hvis, hrest, hcels, _⟩ :=
    checkLoop_spec s now hu t.currentChallenges t page um hum hnd
      (fun c hc => ⟨c, hc, rfl⟩)
  refine ⟨t1, page1, um1, by simp only [checkChallengeCompletion, hu, if_false]; exact hrun,
    hlist, hum1, hoth, ?_, ?_, hcels, ?_⟩
  · intro c hc e he hcomp hge
    rw [hvis c hc, he]
    simp [afterCheck, hcomp, hge, completeEntry]
  · intro id hid
    by_cases hmem : id ∈ t.currentChallenges.map (fun c => c.id)
    · obtain ⟨c, hc, rfl⟩ := List.mem_map.mp hmem
      rw [hvis c hc]
      cases he : um c.id with
      | none => rfl
      | some e =>
        rcases hid c hc rfl e he with h | h
        · simp [afterCheck, h]
        · have : ¬ e.progress ≥ c.goal := by omega
          simp [afterCheck, this]
    · exact hrest id hmem
  · obtain ⟨t2, page2, _, hrun2, _, _, _, _, _, _, hnoop⟩ :=
      checkLoop_spec s now2 hu t1.currentChallenges t1 page1 um1 hum1 (hlist ▸ hnd)
        (fun c hc => ⟨c, hc, rfl⟩)
    have hnone : ∀ c ∈ t1.currentChallenges, qualifies um1 c.id c.goal = false := by
      intro c hc
      exact qualifies_afterCheck um um1 c.id c.goal now (hvis c (hlist ▸ hc))
    obtain ⟨h1, h2⟩ := hnoop hnone
    simp only [checkChallengeCompletion, hu, if_false]
    rw [hrun2, h1, h2]

/-- C12 on `pendingTracker`: the entry of `weekly_course_completion` is completed at instant
42 with one celebration, the entry of `weekly_study_time` stays as it is, and a second call
leaves all that in place. -/
theorem checkChallengeCompletion_completes_once_witness :
    ∃ t1 page1 um1, checkChallengeCompletion guestSession pendingTracker Page.empty 42 =
        .ok (t1, page1) ∧
      t1.userProgress "guest" = some um1 ∧
      um1 "weekly_course_completion" =
        some { progress := 2, completed := true, completedAt := some 42 } ∧
      um1 "weekly_study_time" = some { progress := 3, completed := false, completedAt := none } ∧
      page1.celebrations.map (fun x => x.challengeId) = ["weekly_course_completion"] ∧
      checkChallengeCompletion guestSession t1 page1 43 = .ok (t1, page1) := by
  obtain ⟨t1, page1, um1, h1, _, h3, _, h5, h6, h7, h8⟩ :=
    checkChallengeCompletion_completes_once guestSession pendingTracker Page.empty 42 43
      (fun c =>
        if c = "weekly_course_completion" then
          some { progress := 2, completed := false, completedAt := none }
        else if c = "weekly_study_time" then
          some { progress := 3, completed := false, completedAt := none }
        else none)
      (by decide) rfl (by decide)
  refine ⟨t1, page1, um1, h1, h3, ?_, ?_, ?_, h8⟩
  · exact h5 (initialChallenges 1000 5000)[1] (by decide) _ rfl rfl (by decide)
  · rw [h6 "weekly_study_time"]
    · rfl
    · intro c hc hid e he
      have hc1 : c ∈ initialChallenges 1000 5000 := hc
      simp only [initialChallenges, List.mem_cons, List.mem_singleton, List.not_mem_nil,
        or_false] at hc1
      rcases hc1 with rfl | rfl | rfl | rfl
      · exact absurd hid (by decide)
      · exact absurd hid (by decide)
      · right
        injection he with he
        rw [← he]
        decide
      · exact absurd hid (by decide)
  · rw [h7]
    decide

/-! ### The loop of `recordActivity` -/

theorem setChallengeProgress_static (id : String) (value : ProgressValue) (cs : List Challenge) :
    (setChallengeProgress id value cs).map (fun c => (c.id, c.goal)) =
      cs.map (fun c => (c.id, c.goal)) := by
  induction cs with
  | nil => rfl
  | cons c rest ih =>
    unfold setChallengeProgress
    split
    · simp
    · simp [ih]

/-- One `updateChallengeProgress` when the user has a map: it raises nothing, changes the one
entry as `afterRecord` says, and changes no id or goal on the list. -/
theorem updateChallengeProgress_ok (s : Session) (t : LearningChallenges) (id : String)
    (value : Int) (um : UserMap) (hum : t.userProgress (getCurrentUserId s) = some um) :
    ∃ t1 um1, updateChallengeProgress s t id value = .ok t1 ∧
      t1.userProgress (getCurrentUserId s) = some um1 ∧
      (∀ v, v ≠ getCurrentUserId s → t1.userProgress v = t.userProgress v) ∧
      t1.currentChallenges.map (fun c => (c.id, c.goal)) =
        t.currentChallenges.map (fun c => (c.id, c.goal)) ∧
      um1 id = afterRecord true value (um id) ∧
      (∀ x, x ≠ id → um1 x = um x) := by
  unfold updateChallengeProgress
  simp only [hum]
  cases he : um id with
  | none =>
    simp only [Bool.not_false, if_true]
    exact ⟨_, _, rfl, setEntry_self _ _ _ _ _, fun v hv => setEntry_other _ _ _ _ _ _ hv,
      setChallengeProgress_static _ _ _, by simp [afterRecord], fun x hx => by simp [hx]⟩
  | some e =>
    cases hcomp : e.completed
    · simp only [hcomp, Bool.not_false, if_true]
      exact ⟨_, _, rfl, setEntry_self _ _ _ _ _, fun v hv => setEntry_other _ _ _ _ _ _ hv,
        setChallengeProgress_static _ _ _, by simp [afterRecord, hcomp],
        fun x hx => by simp [hx]⟩
    · simp only [hcomp, Bool.not_true, Bool.false_eq_true, if_false]
      exact ⟨t, um, rfl, hum, fun _ _ => rfl, rfl, by simp [afterRecord, he, hcomp],
        fun _ _ => rfl⟩

/-- The loop of `recordActivity` over challenges with distinct ids: it raises nothing, leaves
other users and all ids and goals alone, makes of each visited entry what `afterRecord` says
and changes no other entry. -/
theorem recordLoop_spec (s : Session) (activityType : String) (value : Int) :
    ∀ (cs : List Challenge) (t : LearningChallenges) (um : UserMap),
      t.userProgress (getCurrentUserId s) = some um →
      (cs.map (fun c => c.id)).Nodup →
      ∃ t1 um1, recordLoop s activityType value cs t = .ok t1 ∧
        t1.userProgress (getCurrentUserId s) = some um1 ∧
        (∀ v, v ≠ getCurrentUserId s → t1.userProgress v = t.userProgress v) ∧
        t1.currentChallenges.map (fun c => (c.id, c.goal)) =
          t.currentChallenges.map (fun c => (c.id, c.goal)) ∧
        (∀ c ∈ cs, um1 c.id =
          afterRecord (shouldUpdateChallenge c activityType) value (um c.id)) ∧
        (∀ id, id ∉ cs.map (fun c => c.id) → um1 id = um id) := by
  intro cs
  induction cs with
  | nil =>
    intro t um hum _
    exact ⟨t, um, rfl, hum, fun _ _ => rfl, rfl,
      fun _ h => absurd h (List.not_mem_nil _), fun _ _ => rfl⟩
  | cons c rest ih =>
    intro t um hum hnd
    rw [List.map_cons, List.nodup_cons] at hnd
    obtain ⟨hc, hnd1⟩ := hnd
    have hne : ∀ x ∈ rest, x.id ≠ c.id := by
      intro x hx h
      exact hc (List.mem_map.mpr ⟨x, hx, h⟩)
    cases hsh : shouldUpdateChallenge c activityType
    · obtain ⟨t1, um1, hrun, hum1, hoth, hstat, hvis, hrest⟩ := ih t um hum hnd1
      refine ⟨t1, um1, by simp only [recordLoop, hsh, Bool.false_eq_true, if_false]; exact hrun,
        hum1, hoth, hstat, ?_, ?_⟩
      · intro x hx
        rcases List.mem_cons.mp hx with rfl | hx
        · rw [hrest _ hc, hsh]; rfl
        · exact hvis x hx
      · intro id hid
        rw [List.map_cons, List.mem_cons, not_or] at hid
        exact hrest id hid.2
    · obtain ⟨t0, um0, hupd, hum0, hoth0, hstat0, hid0, hrest0⟩ :=
        updateChallengeProgress_ok s t c.id value um hum
      obtain ⟨t1, um1, hrun, hum1, hoth, hstat, hvis, hrest⟩ := ih t0 um0 hum0 hnd1
      refine ⟨t1, um1, by simp only [recordLoop, hsh, if_true, hupd]; exact hrun,
        hum1, fun v hv => (hoth v hv).trans (hoth0 v hv), hstat.trans hstat0, ?_, ?_⟩
      · intro x hx
        rcases List.mem_cons.mp hx with rfl | hx
        · rw [hrest _ hc, hid0, hsh]
        · rw [hvis x hx, hrest0 _ (hne x hx)]
      · intro id hid
        rw [List.map_cons, List.mem_cons, not_or] at hid
        rw [hrest id hid.2, hrest0 id hid.1]

/-! ### One call of `recordActivity` -/

theorem qualifies_eq_entryQualifies (um : UserMap) (id : String) (goal : Int) :
    qualifies um id goal = entryQualifies goal (um id) := by
  unfold qualifies entryQualifies
  cases um id <;> rfl

theorem saveUserProgress_celebrations (s : Session) (t : LearningChallenges) (page : Page) :
    (saveUserProgress s t page).celebrations = page.celebrations := by
  unfold saveUserProgress
  simp only []
  split <;> rfl

theorem ids_of_static (cs1 cs : List Challenge)
    (h : cs1.map (fun c => (c.id, c.goal)) = cs.map (fun c => (c.id, c.goal))) :
    cs1.map (fun c => c.id) = cs.map (fun c => c.id) := by
  have := congrArg (List.map Prod.fst) h
  simpa [List.map_map, Function.comp_def] using this

theorem filter_ids_of_static (P : String → Int → Bool) (cs1 cs : List Challenge)
    (h : cs1.map (fun c => (c.id, c.goal)) = cs.map (fun c => (c.id, c.goal))) :
    (cs1.filter (fun c => P c.id c.goal)).map (fun c => c.id) =
      (cs.filter (fun c => P c.id c.goal)).map (fun c => c.id) := by
  have key : ∀ l : List Challenge, (l.filter (fun c => P c.id c.goal)).map (fun c => c.id) =
      ((l.map (fun c => (c.id, c.goal))).filter (fun q => P q.1 q.2)).map Prod.fst := by
    intro l
    induction l with
    | nil => rfl
    | cons c rest ih =>
      by_cases hp : P c.id c.goal = true
      · simp [List.filter_cons, hp, ih]
      · simp [List.filter_cons, hp, ih]
  rw [key cs1, key cs, h]

/-- One call of `recordActivity` by a user with a non-empty id, on a list with distinct ids: it
raises nothing, leaves other users and all ids and goals alone, makes of the entry of each
listed challenge what `afterRecord` followed by `afterCheck` says, changes no other entry, and
shows one celebration for each entry that qualifies after the recording. -/
theorem recordActivity_spec (s : Session) (t : LearningChallenges) (page : Page)
    (activityType : String) (value : Int) (now : Nat) (hu : getCurrentUserId s ≠ "")
    (hnd : (t.currentChallenges.map (fun c => c.id)).Nodup) :
    ∃ t1 page1, recordActivity s t page activityType value now = .ok (t1, page1) ∧
      t1.currentChallenges.map (fun c => (c.id, c.goal)) =
        t.currentChallenges.map (fun c => (c.id, c.goal)) ∧
      (∀ v, v ≠ getCurrentUserId s → t1.userProgress v = t.userProgress v) ∧
      (∀ c ∈ t.currentChallenges, entryOf t1 (getCurrentUserId s) c.id =
        afterCheck c.goal now (afterRecord (shouldUpdateChallenge c activityType) value
          (entryOf t (getCurrentUserId s) c.id))) ∧
      (∀ id, id ∉ t.currentChallenges.map (fun c => c.id) →
        entryOf t1 (getCurrentUserId s) id = entryOf t (getCurrentUserId s) id) ∧
      page1.celebrations.map (fun x => x.challengeId) =
        page.celebrations.map (fun x => x.challengeId) ++
          (t.currentChallenges.filter (fun c => entryQualifies c.goal
            (afterRecord (shouldUpdateChallenge c activityType) value
              (entryOf t (getCurrentUserId s) c.id)))).map (fun c => c.id) := by
  -- the state after `userProgress[userId]` has been initialised
  have hinit : ∃ (t0 : LearningChallenges) (um0 : UserMap),
      (match t.userProgress (getCurrentUserId s) with
        | some _ => t
        | none => { t with userProgress := fun u =>
            if u = getCurrentUserId s then some (fun _ => none) else t.userProgress u }) = t0 ∧
      t0.currentChallenges = t.currentChallenges ∧
      t0.userProgress (getCurrentUserId s) = some um0 ∧
      (∀ v, v ≠ getCurrentUserId s → t0.userProgress v = t.userProgress v) ∧
      ∀ id, um0 id = entryOf t (getCurrentUserId s) id := by
    cases hmap : t.userProgress (getCurrentUserId s) with
    | none =>
      refine ⟨_, fun _ => none, rfl, rfl, by simp, fun v hv => by simp [hv], ?_⟩
      intro id; simp [entryOf, hmap]
    | some um =>
      refine ⟨t, um, rfl, rfl, hmap, fun _ _ => rfl, ?_⟩
      intro id; simp [entryOf, hmap]
  obtain ⟨t0, um0, ht0, hlist0, hum0, hoth0, hent0⟩ := hinit
  obtain ⟨t1, um1, hrec, hum1, hoth1, hstat1, hvis1, hrest1⟩ :=
    recordLoop_spec s activityType value t0.currentChallenges t0 um0 hum0 (hlist0 ▸ hnd)
  rw [hlist0] at hstat1 hvis1 hrest1
  have hids1 := ids_of_static _ _ hstat1
  obtain ⟨t2, page2, um2, hchk, hlist2, hum2, hoth2, hvis2, hrest2, hcels2, _⟩ :=
    checkLoop_spec s now hu t1.currentChallenges t1 (saveUserProgress s t1 page) um1 hum1
      (hids1 ▸ hnd) (fun c hc => ⟨c, hc, rfl⟩)
  refine ⟨t2, page2, ?_, ?_, ?_, ?_, ?_, ?_⟩
  · unfold recordActivity
    simp only [hu, if_false, ht0, hrec, checkChallengeCompletion]
    exact hchk
  · rw [hlist2]; exact hstat1
  · intro v hv
    rw [hoth2 v hv, hoth1 v hv, hoth0 v hv]
  · intro c hc
    have hpair : (c.id, c.goal) ∈ t1.currentChallenges.map (fun c => (c.id, c.goal)) := by
      rw [hstat1]; exact List.mem_map.mpr ⟨c, hc, rfl⟩
    obtain ⟨c1, hc1, hpc1⟩ := List.mem_map.mp hpair
    have hid : c1.id = c.id := congrArg Prod.fst hpc1
    have hgoal : c1.goal = c.goal := congrArg Prod.snd hpc1
    have h2 := hvis2 c1 hc1
    rw [hid, hgoal, hvis1 c hc, hent0] at h2
    simp only [entryOf, hum2]
    exact h2
  · intro id hid
    have h2 := hrest2 id (hids1 ▸ hid)
    rw [hrest1 id hid, hent0] at h2
    simp only [entryOf, hum2]
    exact h2
  · rw [hcels2, saveUserProgress_celebrations,
      filter_ids_of_static (fun id goal => qualifies um1 id goal) _ _ hstat1]
    congr 2
    apply List.filter_congr
    intro c hc
    rw [qualifies_eq_entryQualifies, hvis1 c hc, hent0]

theorem afterCheck_progress (goal : Int) (now : Nat) (o : Option ChallengeProgress) :
    (afterCheck goal now o).map (fun e => e.progress) = o.map (fun e => e.progress) := by
  cases o with
  | none => rfl
  | some e =>
    simp only [afterCheck]
    split <;> rfl

theorem afterCheck_settled (goal : Int) (now : Nat) (o : Option ChallengeProgress)
    (e : ChallengeProgress) (h : afterCheck goal now o = some e) :
    e.completed = true ∨ e.progress < goal := by
  cases o with
  | none => cases h
  | some e0 =>
    simp only [afterCheck] at h
    split at h
    · injection h with h
      left; rw [← h]; rfl
    · rename_i hq
      injection h with h
      subst h
      cases hc : e0.completed
      · right
        simp only [hc, Bool.not_false, Bool.true_and, decide_eq_true_eq] at hq
        omega
      · left; rfl

theorem afterCheck_of_settled (goal : Int) (now : Nat) (o : Option ChallengeProgress)
    (h : ∀ e, o = some e → e.completed = true ∨ e.progress < goal) :
    afterCheck goal now o = o := by
  cases o with
  | none => rfl
  | some e =>
    rcases h e rfl with h | h
    · simp [afterCheck, h]
    · have : ¬ e.progress ≥ goal := by omega
      simp [afterCheck, this]

theorem shouldUpdateChallenge_iff (c : Challenge) (activityType : String) :
    shouldUpdateChallenge c activityType = true ↔ activityMap c.id = some activityType := by
  simp [shouldUpdateChallenge]

/-- A freshly constructed tracker with nothing stored for the user is settled. -/
theorem settled_construct (s : Session) (page : Page) (nextWeek nextMonth : Nat)
    (h : page.localStorage (getCurrentUserId s) = none) :
    Settled (construct s page nextWeek nextMonth) (getCurrentUserId s) := by
  intro c _ e he
  have hup : (construct s page nextWeek nextMonth).userProgress = fun _ => none := by
    unfold construct loadUserProgress
    simp only [h]
    split <;> rfl
  simp [entryOf, hup] at he

/-! ### C13: which entries an activity changes -/

/-- C13 as stated fails in its last clause: an activity type that the table maps to no
challenge can change a completion state.  On `pendingTracker`, where `guest` has reached the
goal of `weekly_course_completion` without the entry being completed, the call
`recordActivity("not_in_the_table", 1)` marks that entry completed.  The same happens on a
tracker brought to that point by calls alone: a first `recordActivity`, then
`updateChallengeProgress("weekly_course_completion", 2)`, then the unmapped activity. -/
theorem unmapped_activity_completes_waiting_entry :
    (∀ c ∈ pendingTracker.currentChallenges, activityMap c.id ≠ some "not_in_the_table") ∧
    entryOf pendingTracker "guest" "weekly_course_completion" =
      some { progress := 2, completed := false, completedAt := none } ∧
    (recordActivity guestSession pendingTracker Page.empty "not_in_the_table" 1 42).toOption.map
        (fun st => entryOf st.1 "guest" "weekly_course_completion") =
      some (some { progress := 2, completed := true, completedAt := some 42 }) ∧
    ((recordActivity guestSession freshTracker Page.empty "not_in_the_table" 1 10).toOption.bind
        (fun st1 =>
          (updateChallengeProgress guestSession st1.1 "weekly_course_completion" 2).toOption.bind
            (fun t2 =>
              (recordActivity guestSession t2 st1.2 "not_in_the_table" 1 42).toOption.map
                (fun st3 => (entryOf t2 "guest" "weekly_course_completion",
                  entryOf st3.1 "guest" "weekly_course_completion"))))) =
      some (some { progress := 2, completed := false, completedAt := none },
        some { progress := 2, completed := true, completedAt := some 42 }) := by
  refine ⟨by decide, by decide, by decide, by decide⟩

/-- C13, amended. One `recordActivity(activityType, value)` by a user with a non-empty id, on a
list with distinct ids, raises nothing.  For a listed challenge that the table maps to
`activityType`: a missing entry ends with progress `value`, an entry not yet completed has
`value` added to its progress, a completed entry is unchanged.  The progress of every other
entry of the user, and every entry of every other user, is unchanged.  If the table maps no
listed challenge to `activityType`, the entries that change are exactly those of listed
challenges that exist, are not completed and have `progress >= goal`: the closing
`checkChallengeCompletion` marks them completed at `now`; every other entry is as it was.
Every call ends with no such entry left.  The table maps the four ids to `lesson_complete`,
`course_complete`, `study_time` and `certificate_share`, and no other id to anything. -/
theorem recordActivity_updates_mapped (s : Session) (t : LearningChallenges) (page : Page)
    (activityType : String) (value : Int) (now : Nat) (hu : getCurrentUserId s ≠ "")
    (hnd : (t.currentChallenges.map (fun c => c.id)).Nodup) :
    ∃ t1 page1, recordActivity s t page activityType value now = .ok (t1, page1) ∧
      (∀ c ∈ t.currentChallenges, activityMap c.id = some activityType →
        (entryOf t (getCurrentUserId s) c.id = none →
          (entryOf t1 (getCurrentUserId s) c.id).map (fun e => e.progress) = some value) ∧
        (∀ e, entryOf t (getCurrentUserId s) c.id = some e → e.completed = false →
          (entryOf t1 (getCurrentUserId s) c.id).map (fun e => e.progress) =
            some (e.progress + value)) ∧
        (∀ e, entryOf t (getCurrentUserId s) c.id = some e → e.completed = true →
          entryOf t1 (getCurrentUserId s) c.id = some e)) ∧
      (∀ id, (∀ c ∈ t.currentChallenges, c.id = id → activityMap id ≠ some activityType) →
        (entryOf t1 (getCurrentUserId s) id).map (fun e => e.progress) =
          (entryOf t (getCurrentUserId s) id).map (fun e => e.progress)) ∧
      (∀ v id, v ≠ getCurrentUserId s → entryOf t1 v id = entryOf t v id) ∧
      ((∀ c ∈ t.currentChallenges, activityMap c.id ≠ some activityType) →
        (∀ c ∈ t.currentChallenges, ∀ e, entryOf t (getCurrentUserId s) c.id = some e →
          e.completed = false → e.progress ≥ c.goal →
          entryOf t1 (getCurrentUserId s) c.id =
            some { e with completed := true, completedAt := some now }) ∧
        (∀ id, (∀ c ∈ t.currentChallenges, c.id = id →
            ∀ e, entryOf t (getCurrentUserId s) id = some e →
              e.completed = true ∨ e.progress < c.goal) →
          entryOf t1 (getCurrentUserId s) id = entryOf t (getCurrentUserId s) id)) ∧
      Settled t1 (getCurrentUserId s) ∧
      (activityMap "weekly_lesson_streak" = some "lesson_complete" ∧
        activityMap "weekly_course_completion" = some "course_complete" ∧
        activityMap "weekly_study_time" = some "study_time" ∧
        activityMap "monthly_community" = some "certificate_share" ∧
        ∀ id, id ∉ ["weekly_lesson_streak", "weekly_course_completion", "weekly_study_time",
          "monthly_community"] → activityMap id = none) := by
  obtain ⟨t1, page1, hrun, hstat, hoth, hvis, hrest, _⟩ :=
    recordActivity_spec s t page activityType value now hu hnd
  have hunmapped : ∀ c ∈ t.currentChallenges, activityMap c.id ≠ some activityType →
      entryOf t1 (getCurrentUserId s) c.id =
        afterCheck c.goal now (entryOf t (getCurrentUserId s) c.id) := by
    intro c hc hmap
    have hsh : shouldUpdateChallenge c activityType = false := by
      cases h : shouldUpdateChallenge c activityType
      · rfl
      · exact absurd ((shouldUpdateChallenge_iff c activityType).mp h) hmap
    rw [hvis c hc, hsh]
    rfl
  refine ⟨t1, page1, hrun, ?_, ?_, ?_, ?_, ?_, ?_⟩
  · intro c hc hmap
    have hsh := (shouldUpdateChallenge_iff c activityType).mpr hmap
    refine ⟨?_, ?_, ?_⟩
    · intro he
      rw [hvis c hc, afterCheck_progress, hsh, he]
      simp [afterRecord]
    · intro e he hcomp
      rw [hvis c hc, afterCheck_progress, hsh, he]
      simp [afterRecord, hcomp]
    · intro e he hcomp
      rw [hvis c hc, hsh, he]
      simp [afterRecord, afterCheck, hcomp]
  · intro id hid
    by_cases hmem : id ∈ t.currentChallenges.map (fun c => c.id)
    · obtain ⟨c, hc, rfl⟩ := List.mem_map.mp hmem
      rw [hunmapped c hc (hid c hc rfl), afterCheck_progress]
    · rw [hrest id hmem]
  · intro v id hv
    simp only [entryOf, hoth v hv]
  · intro hnone
    constructor
    · intro c hc e he hcomp hge
      rw [hunmapped c hc (hnone c hc), he]
      simp [afterCheck, hcomp, hge, completeEntry]
    · intro id hid
      by_cases hmem : id ∈ t.currentChallenges.map (fun c => c.id)
      · obtain ⟨c, hc, rfl⟩ := List.mem_map.mp hmem
        rw [hunmapped c hc (hnone c hc)]
        exact afterCheck_of_settled _ _ _ (hid c hc rfl)
      · exact hrest id hmem
  · intro c1 hc1 e he
    have hpair : (c1.id, c1.goal) ∈ t.currentChallenges.map (fun c => (c.id, c.goal)) := by
      rw [← hstat]; exact List.mem_map.mpr ⟨c1, hc1, rfl⟩
    obtain ⟨c, hc, hpc⟩ := List.mem_map.mp hpair
    have hid : c.id = c1.id := congrArg Prod.fst hpc
    have hgoal : c.goal = c1.goal := congrArg Prod.snd hpc
    have h := hvis c hc
    rw [hid, hgoal, he] at h
    exact afterCheck_settled _ _ _ e h.symm
  · refine ⟨by decide, by decide, by decide, by decide, ?_⟩
    intro id hid
    simp only [List.mem_cons, List.mem_singleton, List.not_mem_nil, or_false, not_or] at hid
    simp [activityMap, hid.1, hid.2.1, hid.2.2.1, hid.2.2.2]

/-- C13 amended, on `pendingTracker`.  Two hours of `study_time` raise the progress of
`weekly_study_time` from 3 to 5 and leave `weekly_lesson_streak` without an entry.  The
unmapped activity `not_in_the_table` completes the waiting entry of
`weekly_course_completion` at instant 42 and leaves the entry of `weekly_study_time`, which
is below its goal, as it was. -/
theorem recordActivity_updates_mapped_witness :
    (∃ t1 page1, recordActivity guestSession pendingTracker Page.empty "study_time" 2 42 =
        .ok (t1, page1) ∧
      (entryOf t1 "guest" "weekly_study_time").map (fun e => e.progress) = some 5 ∧
      (entryOf t1 "guest" "weekly_lesson_streak").map (fun e => e.progress) = none) ∧
    (∃ t1 page1, recordActivity guestSession pendingTracker Page.empty "not_in_the_table" 1 42 =
        .ok (t1, page1) ∧
      entryOf t1 "guest" "weekly_course_completion" =
        some { progress := 2, completed := true, completedAt := some 42 } ∧
      entryOf t1 "guest" "weekly_study_time" =
        some { progress := 3, completed := false, completedAt := none }) := by
  constructor
  · obtain ⟨t1, page1, h1, h2, h3, _⟩ := recordActivity_updates_mapped guestSession
      pendingTracker Page.empty "study_time" 2 42 (by decide) (by decide)
    refine ⟨t1, page1, h1, ?_, ?_⟩
    · exact (h2 (initialChallenges 1000 5000)[2] (by decide) (by decide)).2.1
        { progress := 3, completed := false, completedAt := none } (by decide) rfl
    · refine (h3 "weekly_lesson_streak" ?_).trans (by decide)
      intro c _ hid
      decide
  · obtain ⟨t1, page1, h1, _, _, _, h5, _⟩ := recordActivity_updates_mapped guestSession
      pendingTracker Page.empty "not_in_the_table" 1 42 (by decide) (by decide)
    obtain ⟨hdone, hsame⟩ := h5 (by decide)
    refine ⟨t1, page1, h1, ?_, ?_⟩
    · exact hdone (initialChallenges 1000 5000)[1] (by decide)
        { progress := 2, completed := false, completedAt := none } (by decide) rfl (by decide)
    · refine (hsame "weekly_study_time" ?_).trans (by decide)
      intro c hc hid e he
      have hc1 : c ∈ initialChallenges 1000 5000 := hc
      simp only [initialChallenges, List.mem_cons, List.mem_singleton, List.not_mem_nil,
        or_false] at hc1
      have he1 : e = { progress := 3, completed := false, completedAt := none } := by
        have h0 : entryOf pendingTracker (getCurrentUserId guestSession) "weekly_study_time" =
            some { progress := 3, completed := false, completedAt := none } := by decide
        rw [h0] at he
        exact (Option.some.inj he).symm
      rcases hc1 with rfl | rfl | rfl | rfl
      · exact absurd hid (by decide)
      · exact absurd hid (by decide)
      · right; rw [he1]; decide
      · exact absurd hid (by decide)

/-! ### C11: the seven-lesson streak -/

/-- One `recordActivity('lesson_complete', 1)` on a tracker with the four challenges, in which
the user has at most the entry `o` of `weekly_lesson_streak`. -/
theorem streak_step (s : Session) (t : LearningChallenges) (page : Page) (now : Nat)
    (nextWeek nextMonth : Nat) (o : Option ChallengeProgress) (hu : getCurrentUserId s ≠ "")
    (hlist : t.currentChallenges.map (fun c => (c.id, c.goal)) =
      (initialChallenges nextWeek nextMonth).map (fun c => (c.id, c.goal)))
    (hstreak : entryOf t (getCurrentUserId s) "weekly_lesson_streak" = o)
    (hothers : ∀ id, id ≠ "weekly_lesson_streak" → entryOf t (getCurrentUserId s) id = none) :
    ∃ t1 page1, recordActivity s t page "lesson_complete" 1 now = .ok (t1, page1) ∧
      t1.currentChallenges.map (fun c => (c.id, c.goal)) =
        (initialChallenges nextWeek nextMonth).map (fun c => (c.id, c.goal)) ∧
      entryOf t1 (getCurrentUserId s) "weekly_lesson_streak" =
        afterCheck 7 now (afterRecord true 1 o) ∧
      (∀ id, id ≠ "weekly_lesson_streak" → entryOf t1 (getCurrentUserId s) id = none) ∧
      page1.celebrations.map (fun x => x.challengeId) =
        page.celebrations.map (fun x => x.challengeId) ++
          (if entryQualifies 7 (afterRecord true 1 o) = true then ["weekly_lesson_streak"]
           else []) := by
  have hids : t.currentChallenges.map (fun c => c.id) =
      ["weekly_lesson_streak", "weekly_course_completion", "weekly_study_time",
        "monthly_community"] := by
    rw [ids_of_static _ _ hlist]; rfl
  have hnd : (t.currentChallenges.map (fun c => c.id)).Nodup := by
    rw [hids]; decide
  have hcases : ∀ c ∈ t.currentChallenges,
      (c.id = "weekly_lesson_streak" ∧ c.goal = 7) ∨
      (c.id ≠ "weekly_lesson_streak" ∧ shouldUpdateChallenge c "lesson_complete" = false) := by
    intro c hc
    have hp : (c.id, c.goal) ∈ (initialChallenges nextWeek nextMonth).map
        (fun c => (c.id, c.goal)) := by
      rw [← hlist]; exact List.mem_map.mpr ⟨c, hc, rfl⟩
    simp only [initialChallenges, List.map_cons, List.map_nil, List.mem_cons,
      List.mem_singleton, List.not_mem_nil, or_false, Prod.mk.injEq] at hp
    rcases hp with ⟨h1, h2⟩ | ⟨h1, _⟩ | ⟨h1, _⟩ | ⟨h1, _⟩
    · exact Or.inl ⟨h1, h2⟩
    · right; rw [shouldUpdateChallenge, h1]; exact ⟨by decide, by decide⟩
    · right; rw [shouldUpdateChallenge, h1]; exact ⟨by decide, by decide⟩
    · right; rw [shouldUpdateChallenge, h1]; exact ⟨by decide, by decide⟩
  obtain ⟨t1, page1, hrun, hstat, _, hvis, hrest, hcels⟩ :=
    recordActivity_spec s t page "lesson_complete" 1 now hu hnd
  refine ⟨t1, page1, hrun, hstat.trans hlist, ?_, ?_, ?_⟩
  · have hmem : "weekly_lesson_streak" ∈ t.currentChallenges.map (fun c => c.id) := by
      rw [hids]; decide
    obtain ⟨c, hc, hid0⟩ := List.mem_map.mp hmem
    have hid : c.id = "weekly_lesson_streak" := hid0
    rcases hcases c hc with ⟨_, hgoal⟩ | ⟨hne, _⟩
    · have h := hvis c hc
      have hsh : shouldUpdateChallenge c "lesson_complete" = true := by
        rw [shouldUpdateChallenge, hid]; decide
      rw [hid, hgoal, hsh, hstreak] at h
      exact h
    · exact absurd hid hne
  · intro id hid
    by_cases hmem : id ∈ t.currentChallenges.map (fun c => c.id)
    · obtain ⟨c, hc, rfl⟩ := List.mem_map.mp hmem
      rcases hcases c hc with ⟨h1, _⟩ | ⟨_, hsh⟩
      · exact absurd h1 hid
      · rw [hvis c hc, hsh, hothers _ hid]
        rfl
    · rw [hrest id hmem]; exact hothers id hid
  · rw [hcels]
    congr 1
    have hfilter := filter_ids_of_static
      (fun id goal => entryQualifies goal
        (afterRecord (activityMap id == some "lesson_complete") 1
          (entryOf t (getCurrentUserId s) id)))
      t.currentChallenges (initialChallenges nextWeek nextMonth) hlist
    simp only [shouldUpdateChallenge]
    rw [hfilter]
    have h2 : entryOf t (getCurrentUserId s) "weekly_course_completion" = none :=
      hothers _ (by decide)
    have h3 : entryOf t (getCurrentUserId s) "weekly_study_time" = none :=
      hothers _ (by decide)
    have h4 : entryOf t (getCurrentUserId s) "monthly_community" = none :=
      hothers _ (by decide)
    have a1 : (activityMap "weekly_lesson_streak" == some "lesson_complete") = true := by decide
    have a2 : (activityMap "weekly_course_completion" == some "lesson_complete") = false := by
      decide
    have a3 : (activityMap "weekly_study_time" == some "lesson_complete") = false := by decide
    have a4 : (activityMap "monthly_community" == some "lesson_complete") = false := by decide
    simp only [initialChallenges, List.filter_cons, List.filter_nil, hstreak, h2, h3, h4,
      a1, a2, a3, a4]
    have hn : ∀ goal : Int, entryQualifies goal (afterRecord false 1 none) = false :=
      fun _ => rfl
    simp only [hn, Bool.false_eq_true, if_false]
    split <;> rfl

/-- The streak entry after one more lesson, in closed form. -/
theorem streak_entry_step (done : List Nat) (now : Nat) :
    afterCheck 7 now (afterRecord true 1
      (if done.length = 0 then none
       else some { progress := ((min done.length 7 : Nat) : Int),
                   completed := decide (7 ≤ done.length),
                   completedAt := if 7 ≤ done.length then done[6]? else none })) =
    some { progress := ((min (done ++ [now]).length 7 : Nat) : Int),
           completed := decide (7 ≤ (done ++ [now]).length),
           completedAt := if 7 ≤ (done ++ [now]).length then (done ++ [now])[6]? else none }
    ∧
    (entryQualifies 7 (afterRecord true 1
      (if done.length = 0 then none
       else some { progress := ((min done.length 7 : Nat) : Int),
                   completed := decide (7 ≤ done.length),
                   completedAt := if 7 ≤ done.length then done[6]? else none })) = true
      ↔ done.length = 6) := by
  have hlen : (done ++ [now]).length = done.length + 1 := by simp
  rw [hlen]
  by_cases h0 : done.length = 0
  · simp [h0, afterRecord, afterCheck, entryQualifies]
  · by_cases h5 : done.length < 6
    · have hmin : min done.length 7 = done.length := by omega
      have hmin1 : min (done.length + 1) 7 = done.length + 1 := by omega
      have h7 : ¬ 7 ≤ done.length := by omega
      have h71 : ¬ 7 ≤ done.length + 1 := by omega
      have hge : ¬ (7 : Int) ≤ (done.length : Int) + 1 := by omega
      have h6 : ¬ done.length = 6 := by omega
      simp [h0, hmin, hmin1, h7, h71, hge, h6, afterRecord, afterCheck, entryQualifies]
    · by_cases h6 : done.length = 6
      · have hget : (done ++ [now])[6]? = some now := by
          rw [List.getElem?_append_right (by omega)]
          simp [h6]
        simp [h6, hget, afterRecord, afterCheck, entryQualifies, completeEntry]
      · have h7 : 7 ≤ done.length := by omega
        have hmin : min done.length 7 = 7 := by omega
        have hmin1 : min (done.length + 1) 7 = 7 := by omega
        have h71 : 7 ≤ done.length + 1 := by omega
        have hget : (done ++ [now])[6]? = done[6]? :=
          List.getElem?_append_left (by omega)
        simp [h0, h6, h7, hmin, hmin1, h71, hget, afterRecord, afterCheck, entryQualifies]

/-- A run of `recordActivity('lesson_complete', 1)` calls continuing a streak of
`done.length` lessons. -/
theorem streak_run (s : Session) (nextWeek nextMonth : Nat) (base : List String)
    (hu : getCurrentUserId s ≠ "") :
    ∀ (rest done : List Nat) (t : LearningChallenges) (page : Page),
      t.currentChallenges.map (fun c => (c.id, c.goal)) =
        (initialChallenges nextWeek nextMonth).map (fun c => (c.id, c.goal)) →
      entryOf t (getCurrentUserId s) "weekly_lesson_streak" =
        (if done.length = 0 then none
         else some { progress := ((min done.length 7 : Nat) : Int),
                     completed := decide (7 ≤ done.length),
                     completedAt := if 7 ≤ done.length then done[6]? else none }) →
      (∀ id, id ≠ "weekly_lesson_streak" → entryOf t (getCurrentUserId s) id = none) →
      page.celebrations.map (fun x => x.challengeId) =
        base ++ (if 7 ≤ done.length then ["weekly_lesson_streak"] else []) →
      ∃ t1 page1, recordTimes s "lesson_complete" 1 rest (t, page) = .ok (t1, page1) ∧
        t1.currentChallenges.map (fun c => (c.id, c.goal)) =
          (initialChallenges nextWeek nextMonth).map (fun c => (c.id, c.goal)) ∧
        entryOf t1 (getCurrentUserId s) "weekly_lesson_streak" =
          (if (done ++ rest).length = 0 then none
           else some { progress := ((min (done ++ rest).length 7 : Nat) : Int),
                       completed := decide (7 ≤ (done ++ rest).length),
                       completedAt :=
                         if 7 ≤ (done ++ rest).length then (done ++ rest)[6]? else none }) ∧
        (∀ id, id ≠ "weekly_lesson_streak" → entryOf t1 (getCurrentUserId s) id = none) ∧
        page1.celebrations.map (fun x => x.challengeId) =
          base ++ (if 7 ≤ (done ++ rest).length then ["weekly_lesson_streak"] else []) := by
  intro rest
  induction rest with
  | nil =>
    intro done t page hlist hstreak hothers hcel
    refine ⟨t, page, rfl, hlist, ?_, hothers, ?_⟩
    · rw [List.append_nil]; exact hstreak
    · rw [List.append_nil]; exact hcel
  | cons now rest ih =>
    intro done t page hlist hstreak hothers hcel
    obtain ⟨t0, page0, hrun0, hlist0, hstreak0, hothers0, hcel0⟩ :=
      streak_step s t page now nextWeek nextMonth _ hu hlist hstreak hothers
    obtain ⟨hentry, hqual⟩ := streak_entry_step done now
    have hlen : (done ++ [now]).length ≠ 0 := by simp
    have hstreak1 : entryOf t0 (getCurrentUserId s) "weekly_lesson_streak" =
        (if (done ++ [now]).length = 0 then none
         else some { progress := ((min (done ++ [now]).length 7 : Nat) : Int),
                     completed := decide (7 ≤ (done ++ [now]).length),
                     completedAt :=
                       if 7 ≤ (done ++ [now]).length then (done ++ [now])[6]? else none }) := by
      rw [if_neg hlen, hstreak0, hentry]
    have hcel1 : page0.celebrations.map (fun x => x.challengeId) =
        base ++ (if 7 ≤ (done ++ [now]).length then ["weekly_lesson_streak"] else []) := by
      rw [hcel0, hcel]
      have hl : (done ++ [now]).length = done.length + 1 := by simp
      rw [hl]
      by_cases h6 : done.length = 6
      · have hq := hqual.mpr h6
        rw [if_pos hq]
        simp [h6]
      · have hq : ¬ entryQualifies 7 (afterRecord true 1
            (if done.length = 0 then none
             else some { progress := ((min done.length 7 : Nat) : Int),
                         completed := decide (7 ≤ done.length),
                         completedAt := if 7 ≤ done.length then done[6]? else none })) = true :=
          fun h => h6 (hqual.mp h)
        rw [if_neg hq]
        by_cases h7 : 7 ≤ done.length
        · have h71 : 7 ≤ done.length + 1 := by omega
          simp [h7, h71]
        · have h71 : ¬ 7 ≤ done.length + 1 := by omega
          simp [h7, h71]
    obtain ⟨t1, page1, hrun1, hlist1, hstreak2, hothers1, hcel2⟩ :=
      ih (done ++ [now]) t0 page0 hlist0 hstreak1 hothers0 hcel1
    have happ : done ++ [now] ++ rest = done ++ now :: rest := by simp
    rw [happ] at hstreak2 hcel2
    refine ⟨t1, page1, ?_, hlist1, hstreak2, hothers1, hcel2⟩
    simp only [recordTimes, hrun0]
    exact hrun1

/-- C11. A tracker is constructed for a user with a non-empty id and nothing stored, and
`recordActivity('lesson_complete', 1)` is called once at each instant of `nows`, `n` calls in
all.  No call raises.  For `n = 0` the user has no entry for `weekly_lesson_streak`; for
`n > 0` the entry has `progress = min(n, 7)`, `completed = (n >= 7)` and, once completed,
`completedAt` the instant of the 7th call.  The run has shown one celebration for the
challenge if `n >= 7` and none otherwise.  After 7 or more calls a further call leaves the
entry as it is and shows nothing. -/
theorem lesson_streak_completes_once (s : Session) (page : Page) (nextWeek nextMonth : Nat)
    (nows : List Nat) (hu : getCurrentUserId s ≠ "")
    (hfresh : page.localStorage (getCurrentUserId s) = none) :
    ∃ t1 page1, recordTimes s "lesson_complete" 1 nows
        (construct s page nextWeek nextMonth, page) = .ok (t1, page1) ∧
      entryOf t1 (getCurrentUserId s) "weekly_lesson_streak" =
        (if nows.length = 0 then none
         else some { progress := ((min nows.length 7 : Nat) : Int),
                     completed := decide (7 ≤ nows.length),
                     completedAt := if 7 ≤ nows.length then nows[6]? else none }) ∧
      page1.celebrations.map (fun x => x.challengeId) =
        page.celebrations.map (fun x => x.challengeId) ++
          (if 7 ≤ nows.length then ["weekly_lesson_streak"] else []) ∧
      (7 ≤ nows.length → ∀ now8, ∃ t2 page2,
        recordActivity s t1 page1 "lesson_complete" 1 now8 = .ok (t2, page2) ∧
        entryOf t2 (getCurrentUserId s) "weekly_lesson_streak" =
          entryOf t1 (getCurrentUserId s) "weekly_lesson_streak" ∧
        page2.celebrations.map (fun x => x.challengeId) =
          page1.celebrations.map (fun x => x.challengeId)) := by
  have hcon : construct s page nextWeek nextMonth =
      { currentChallenges := initialChallenges nextWeek nextMonth,
        userProgress := fun _ => none } := by
    unfold construct loadUserProgress
    simp only [hfresh]
    split <;> rfl
  obtain ⟨t1, page1, hrun, hlist, hstreak, hothers, hcel⟩ :=
    streak_run s nextWeek nextMonth (page.celebrations.map (fun x => x.challengeId)) hu
      nows [] (construct s page nextWeek nextMonth) page
      (by rw [hcon]) (by rw [hcon]; rfl) (by intro id _; rw [hcon]; rfl) (by simp)
  rw [List.nil_append] at hstreak hcel
  refine ⟨t1, page1, hrun, hstreak, hcel, ?_⟩
  intro h7 now8
  obtain ⟨t2, page2, hrun2, _, hstreak2, _, hcel2⟩ :=
    streak_step s t1 page1 now8 nextWeek nextMonth _ hu hlist hstreak hothers
  obtain ⟨hentry, hqual⟩ := streak_entry_step nows now8
  have hn0 : nows.length ≠ 0 := by omega
  refine ⟨t2, page2, hrun2, ?_, ?_⟩
  · rw [hstreak2, hentry, hstreak, if_neg hn0]
    have hl : (nows ++ [now8]).length = nows.length + 1 := by simp
    have hget : (nows ++ [now8])[6]? = nows[6]? := List.getElem?_append_left (by omega)
    have hmin : min nows.length 7 = 7 := by omega
    have hmin1 : min (nows.length + 1) 7 = 7 := by omega
    have h71 : 7 ≤ nows.length + 1 := by omega
    simp [hl, hget, hmin, hmin1, h7, h71]
  · rw [hcel2]
    have hq : ¬ entryQualifies 7 (afterRecord true 1
        (if nows.length = 0 then none
         else some { progress := ((min nows.length 7 : Nat) : Int),
                     completed := decide (7 ≤ nows.length),
                     completedAt := if 7 ≤ nows.length then nows[6]? else none })) = true := by
      intro h
      have := hqual.mp h
      omega
    rw [if_neg hq, List.append_nil]

/-- C11 for `guest` on an empty page, eight lessons at instants 10 to 17: the entry stands at
7, completed at instant 16, with one celebration. -/
theorem lesson_streak_completes_once_witness :
    ∃ t1 page1, recordTimes guestSession "lesson_complete" 1 [10, 11, 12, 13, 14, 15, 16, 17]
        (construct guestSession Page.empty 1000 5000, Page.empty) = .ok (t1, page1) ∧
      entryOf t1 "guest" "weekly_lesson_streak" =
        some { progress := 7, completed := true, completedAt := some 16 } ∧
      page1.celebrations.map (fun x => x.challengeId) = ["weekly_lesson_streak"] := by
  obtain ⟨t1, page1, h1, h2, h3, _⟩ := lesson_streak_completes_once guestSession Page.empty
    1000 5000 [10, 11, 12, 13, 14, 15, 16, 17] (by decide) rfl
  exact ⟨t1, page1, h1, h2.trans (by decide), h3.trans (by decide)⟩

/-! ### C14: expired challenges -/

/-- C14. `getActiveChallenges()` returns the challenges whose `expires` is not before the
current instant, in list order, so that none whose `expires` is in the past is among them; and
it leaves the list, `userProgress` and hence every entry as they were.  After three lessons by
`guest`, at an instant past the weekly expiry, only `monthly_community` is active, and the entry
of the expired `weekly_lesson_streak` is still there. -/
theorem getActiveChallenges_excludes_expired :
    (∀ (t : LearningChallenges) (now : Nat),
      (getActiveChallenges t now).1 =
        t.currentChallenges.filter (fun c => decide (now ≤ c.expires)) ∧
      (getActiveChallenges t now).1.Sublist t.currentChallenges ∧
      (∀ c ∈ t.currentChallenges, c.expires < now → c ∉ (getActiveChallenges t now).1) ∧
      (getActiveChallenges t now).2.currentChallenges = t.currentChallenges ∧
      (getActiveChallenges t now).2.userProgress = t.userProgress ∧
      ∀ userId id, entryOf (getActiveChallenges t now).2 userId id = entryOf t userId id) ∧
    (lessonsRecorded 3).toOption.map
        (fun st => ((getActiveChallenges st.1 2000).1.map (fun c => c.id),
          entryOf (getActiveChallenges st.1 2000).2 "guest" "weekly_lesson_streak")) =
      some (["monthly_community"],
        some { progress := 3, completed := false, completedAt := none }) := by
  refine ⟨?_, by decide⟩
  intro t now
  have hfilter : (getActiveChallenges t now).1 =
      t.currentChallenges.filter (fun c => decide (now ≤ c.expires)) := by
    unfold getActiveChallenges isChallengeExpired
    apply List.filter_congr
    intro c _
    by_cases h : now ≤ c.expires
    · have h1 : ¬ now > c.expires := by omega
      simp [h, h1]
    · have h1 : now > c.expires := by omega
      simp [h, h1]
  refine ⟨hfilter, ?_, ?_, rfl, rfl, fun _ _ => rfl⟩
  · rw [hfilter]; exact List.filter_sublist _
  · intro c _ hexp hmem
    rw [hfilter] at hmem
    have := (List.mem_filter.mp hmem).2
    simp only [decide_eq_true_eq] at this
    omega

/-! ### C15: reloading persisted progress -/

/-- C15. `updateChallengesProgress` looks up `userProgress[challenge.id]`, while the stored
object is keyed by user id.  So whenever the stored object has no key that is a challenge id,
a new tracker leaves every `challenge.progress` at its initial 0.  After three lessons by
`guest`, a new tracker on the same page has loaded the entry with progress 3, and its
`weekly_lesson_streak` challenge still has `progress` 0. -/
theorem reload_leaves_challenge_progress_zero :
    (∀ (s : Session) (page : Page) (nextWeek nextMonth : Nat),
      (∀ saved, page.localStorage (getCurrentUserId s) = some saved →
        ∀ c ∈ initialChallenges nextWeek nextMonth, saved c.id = none) →
      (construct s page nextWeek nextMonth).currentChallenges =
        initialChallenges nextWeek nextMonth) ∧
    (lessonsRecorded 3).toOption.map
        (fun st => entryOf (construct guestSession st.2 1000 5000) "guest"
          "weekly_lesson_streak") =
      some (some { progress := 3, completed := false, completedAt := none }) ∧
    (lessonsRecorded 3).toOption.map
        (fun st => (construct guestSession st.2 1000 5000).currentChallenges.map
          (fun c => c.progress)) =
      some [.number 0, .number 0, .number 0, .number 0] := by
  refine ⟨?_, by decide, by decide⟩
  intro s page nextWeek nextMonth hkeys
  unfold construct loadUserProgress
  simp only []
  split
  · rfl
  · cases hsaved : page.localStorage (getCurrentUserId s) with
    | none => rfl
    | some saved =>
      simp only [updateChallengesProgress]
      conv_rhs => rw [← List.map_id (initialChallenges nextWeek nextMonth)]
      apply List.map_congr_left
      intro c hc
      simp [hkeys saved hsaved c hc]

end Challenges
